import Mathlib

/-!
# tsh: the command interpreter, embedded and verified

The definitions below are a shallow embedding of `src/main.c` and `src/utils.c`.

* A C string is the list of its characters before the terminating NUL.
* Global variables (`parentPidStr`, `v_AllowBackground`, `saChld`, `lastStatus`, the
  signal mask and the installed handlers) are explicit parameters or fields of a state.
* The answers of the operating system (`fork`, `open`, `dup2`, `waitpid`, `execvp`) are
  inputs.
* Heap allocation (`strdup`, `calloc`) is taken to succeed; `free` is not modelled.
* `argv` is an array of `MAX_ARGS` slots: a store at an index from `MAX_ARGS` on is outside
  the array and ends the run as `ParseResult.overflow`. Reading through a NULL `argv[0]`
  ends `execCommand` as `none`.
* Loops whose termination is not structural (`strtok` until NULL, the loop of
  `expandVariable`) carry fuel; theorems show when the fuel is enough.

The definitions come first, the facts about them after.
-/

namespace Tsh

/-- A C string: its characters up to, and without, the terminating NUL. -/
abbrev CStr := List Char

/-! ## Constants of `main.c` -/

def MAX_LINE_LENGTH : Nat := 2048
def MAX_ARGS : Nat := 256
def CMD_PID_TOKEN : CStr := ['$', '$']
def CMD_COMMENT_TOKEN : Char := '#'
def BACKGROUND_MASK : Nat := 1
def INPUT_REDIRECT_MASK : Nat := 2
def OUTPUT_REDIRECT_MASK : Nat := 4
def OUTPUT_REDIRECT_PERM : Nat := 0o640

/-! ## libc string primitives used by the parser -/

/-- The call `strstr(hay, needle)`: the offset of the first occurrence of `needle` in `hay`,
`none` for the NULL result. -/
def strstr : CStr → CStr → Option Nat
  | [], needle => if needle.isPrefixOf [] then some 0 else none
  | c :: cs, needle =>
    if needle.isPrefixOf (c :: cs) then some 0 else (strstr cs needle).map (· + 1)

/-- One call of `strtok(_, " ")` on the text that is still unread: leading spaces are
skipped; at the end of the text the result is NULL (`none`); otherwise the token runs up
to the next space and the unread text starts after that space. -/
def strtok (s : CStr) : Option (CStr × CStr) :=
  match s.dropWhile (· == ' ') with
  | [] => none
  | c :: cs => some ((c :: cs).takeWhile (· != ' '), ((c :: cs).dropWhile (· != ' ')).drop 1)

/-- The tokens returned by at most `fuel` successive calls of `strtok`, until NULL. -/
def strtokAll : Nat → CStr → List CStr
  | 0, _ => []
  | fuel + 1, s =>
    match strtok s with
    | none => []
    | some (token, rest) => token :: strtokAll fuel rest

/-- The sequence of tokens `strtok(line, " ")`, `strtok(NULL, " ")`, ... yields before it
returns NULL. Every token consumes a character, so `line.length` calls are enough
(`strtokAll_fuel`). -/
def tokens (line : CStr) : List CStr := strtokAll line.length line

/-! ## `utils.c` -/

/-- The function `replaceString(dest, subStr, newSubStr)`: replaces the first occurrence of
`subStr` in `*dest`. Returns the C return value and the new `*dest`. -/
def replaceString (dest subStr newSubStr : CStr) : Int × CStr :=
  match strstr dest subStr with
  | none => (0, dest)
  | some pos => (1, dest.take pos ++ newSubStr ++ dest.drop (pos + subStr.length))

/-! ## `main.c`: variable expansion -/

/-- The loop of `expandVariable`, run for at most `fuel` tests of its condition.
`none` means the loop was still running when the fuel ran out. -/
def expandVariableLoop (parentPidStr : CStr) : Nat → CStr → Option CStr
  | 0, _ => none
  | fuel + 1, arg =>
    match strstr arg CMD_PID_TOKEN with
    | none => some arg
    | some _ => expandVariableLoop parentPidStr fuel (replaceString arg CMD_PID_TOKEN parentPidStr).2

/-- The function `expandVariable(&arg)`: the final `*arg`. The fuel `arg.length + 1` is
enough whenever `parentPidStr` is a string of digits (`expandVariableLoop_digits`). -/
def expandVariable (parentPidStr arg : CStr) : Option CStr :=
  expandVariableLoop parentPidStr (arg.length + 1) arg

/-- What `main` stores in `parentPidStr`: `sprintf(parentPidStr, "%d", getpid())`. -/
def pidString (pid : Nat) : CStr := Nat.toDigits 10 pid

/-- A non-empty string of decimal digits. -/
def isPidStr (s : CStr) : Prop := s ≠ [] ∧ ∀ c ∈ s, c.isDigit = true

instance (s : CStr) : Decidable (isPidStr s) := by unfold isPidStr; infer_instance

/-- Placeholder expansion as the specification words it: going left to right, every
occurrence of the placeholder that does not overlap an earlier one becomes the pid string. -/
def replaceAllPlaceholders (pidStr : CStr) : CStr → CStr
  | [] => []
  | [c] => [c]
  | c :: d :: rest =>
    if c = '$' ∧ d = '$' then pidStr ++ replaceAllPlaceholders pidStr rest
    else c :: replaceAllPlaceholders pidStr (d :: rest)

/-! ## `main.c`: the parser -/

/-- The `struct command`. `argv` lists the slots `argv[0]`, `argv[1]`, ... this parse has
stored so far (`none` is the NULL pointer); the slots after them hold whatever the stack
held before. -/
structure Command where
  argv : List (Option CStr)
  argc : Nat
  in_file : Option CStr
  out_file : Option CStr
  mask : Nat
  deriving DecidableEq, Repr

/-- How a call of `parseCommand` ends. -/
inductive ParseResult where
  /-- Returned 0; the command is ready for `execCommand`. -/
  | ok (cmd : Command)
  /-- Returned -1 after writing `err` to standard error (`[]`: nothing written). -/
  | fail (err : CStr)
  /-- A store to `argv[i]` with `i ≥ MAX_ARGS`: outside the array. -/
  | overflow
  /-- The loop of `expandVariable` did not finish. -/
  | diverges
  deriving DecidableEq, Repr

/-- The store `argv[i] = v`. The parser only stores at an index that is at most the
number of slots it has written. -/
def storeArg (argv : List (Option CStr)) (i : Nat) (v : Option CStr) : List (Option CStr) :=
  if i < argv.length then argv.set i v else argv ++ [v]

/-- The `while (token != NULL)` loop of `parseCommand`. The first list is the current token
followed by the tokens the later calls of `strtok` return. `ParseResult.ok` is the state
of `*cmd` when the loop exits normally. -/
def parseLoop (parentPidStr : CStr) : List CStr → Command → ParseResult
  | [], cmd => .ok cmd
  | token :: rest, cmd =>
    if token = ['>'] then
      match rest with
      | [] => .fail "Error: no file name after >\n".toList
      | file :: rest' =>
        parseLoop parentPidStr rest'
          { cmd with mask := cmd.mask ||| OUTPUT_REDIRECT_MASK, out_file := some file }
    else if token = ['<'] then
      match rest with
      | [] => .fail "Error: no file name after <\n".toList
      | file :: rest' =>
        parseLoop parentPidStr rest'
          { cmd with mask := cmd.mask ||| INPUT_REDIRECT_MASK, in_file := some file }
    else
      match expandVariable parentPidStr token with
      | none => .diverges
      | some arg =>
        if cmd.argc < MAX_ARGS then
          parseLoop parentPidStr rest
            { cmd with argv := storeArg cmd.argv cmd.argc (some arg), argc := cmd.argc + 1 }
        else .overflow

/-- The part of `parseCommand` after the loop (lines 210 to 227). -/
def parseFinish (v_AllowBackground : Nat) (cmd : Command) : ParseResult :=
  if cmd.argc = 0 then .fail []
  else
    let cmd :=
      if cmd.argv.get? (cmd.argc - 1) = some (some ['&']) then
        { cmd with mask := cmd.mask ||| (BACKGROUND_MASK &&& v_AllowBackground),
                   argc := cmd.argc - 1 }
      else cmd
    if cmd.argc < MAX_ARGS then .ok { cmd with argv := storeArg cmd.argv cmd.argc none }
    else .overflow

/-- The function `parseCommand(cmd, line)` for a non-NULL `line`, with the globals
`parentPidStr` and `v_AllowBackground` it reads. -/
def parseCommand (parentPidStr : CStr) (v_AllowBackground : Nat) (line : CStr) : ParseResult :=
  let cmd : Command := { argv := [], argc := 0, in_file := none, out_file := none, mask := 0 }
  if line.length = 0 ∨ line.head? = some CMD_COMMENT_TOKEN then .fail []
  else
    match parseLoop parentPidStr (tokens line) cmd with
    | .ok cmd => parseFinish v_AllowBackground cmd
    | r => r

/-! ## Words of the specification about the scan, as functions on the token list -/

/-- The tokens of a line as the specification words them: the non-empty pieces between
whitespace characters. -/
def whitespaceSeparatedTokens (line : CStr) : List CStr :=
  (line.splitOnP Char.isWhitespace).filter (· ≠ [])

/-- The non-empty pieces of a line between space characters (U+0020 only). -/
def spaceSeparatedTokens (line : CStr) : List CStr :=
  (line.splitOn ' ').filter (· ≠ [])

/-- A redirection operator token. -/
def isRedirectOperator (token : CStr) : Prop := token = ['>'] ∨ token = ['<']

instance (token : CStr) : Decidable (isRedirectOperator token) := by
  unfold isRedirectOperator; infer_instance

/-- The tokens the scan collects as plain arguments: a redirection operator takes the
token after it as its file name, every other token is an argument. -/
def plainTokens : List CStr → List CStr
  | [] => []
  | [token] => if isRedirectOperator token then [] else [token]
  | token :: next :: rest =>
    if isRedirectOperator token then plainTokens rest else token :: plainTokens (next :: rest)

/-- The redirection operator the scan reaches with no token after it, if there is one. -/
def danglingOperator : List CStr → Option CStr
  | [] => none
  | [token] => if isRedirectOperator token then some token else none
  | token :: next :: rest =>
    if isRedirectOperator token then danglingOperator rest else danglingOperator (next :: rest)

/-- The message `parseCommand` writes for a redirection operator without a file name. -/
def danglingMessage (op : CStr) : CStr :=
  "Error: no file name after ".toList ++ op ++ ['\n']

/-- What holds of `*cmd` throughout the loop of `parseCommand`: `argc` counts the slots
written, all of them inside the array; only the two redirection bits can be set, and a
set redirection bit comes with its file name. -/
structure LoopInv (cmd : Command) : Prop where
  argc_eq : cmd.argc = cmd.argv.length
  argc_le : cmd.argc ≤ MAX_ARGS
  mask_lt : cmd.mask < 8
  mask_even : cmd.mask &&& BACKGROUND_MASK = 0
  in_some : cmd.mask &&& INPUT_REDIRECT_MASK ≠ 0 → cmd.in_file ≠ none
  out_some : cmd.mask &&& OUTPUT_REDIRECT_MASK ≠ 0 → cmd.out_file ≠ none

/-! ## Signals and the state of the interpreter process -/

/-- The signal handlers of `main.c`. -/
inductive Handler where
  | handleSigInt
  | handleSigStp_on
  | handleSigStp_off
  deriving DecidableEq, Repr

/-- A signal disposition (the `sa_handler` of a `struct sigaction`). -/
inductive Disposition where
  | SIG_DFL
  | SIG_IGN
  | handler (h : Handler)
  deriving DecidableEq, Repr

/-- A signal set as a bit mask: bit `n` stands for signal number `n`. -/
abbrev SigSet := Nat

def SIGINT : Nat := 2
def SIGKILL : Nat := 9
def SIGSTOP : Nat := 19
def SIGTSTP : Nat := 20

/-- The set `sigfillset` builds: the signals 1 to 64. -/
def sigfillset : SigSet := 2 ^ 65 - 2

/-- The `struct sigaction`. -/
structure Sigaction where
  sa_handler : Disposition
  sa_mask : SigSet
  sa_flags : Nat
  deriving DecidableEq, Repr

/-- The file variables of `main.c` together with the process state that matters here:
the installed dispositions of SIGINT and SIGTSTP, the blocked-signal mask, the bytes
written so far to the two output streams and the `chdir` calls made. -/
structure Shell where
  parentPidStr : CStr
  shouldBreakShell : Nat
  lastStatus : Nat
  saChld : Sigaction
  v_AllowBackground : Nat
  sigint : Disposition
  sigtstp : Disposition
  sigmask : SigSet
  stdout : CStr
  stderr : CStr
  chdirs : List (Option CStr)
  deriving DecidableEq, Repr

/-- The process at the start of `main`, after `sprintf(parentPidStr, "%d", getpid())`:
static initial values, default dispositions, `inheritedMask` blocked. -/
def Shell.start (pid : Nat) (inheritedMask : SigSet) : Shell :=
  { parentPidStr := pidString pid, shouldBreakShell := 0, lastStatus := 0,
    saChld := { sa_handler := .SIG_DFL, sa_mask := 0, sa_flags := 0 },
    v_AllowBackground := 1, sigint := .SIG_DFL, sigtstp := .SIG_DFL,
    sigmask := inheritedMask, stdout := [], stderr := [], chdirs := [] }

/-- The bytes `write(fd, msg, n)` sends for a string literal `msg` (which ends in NUL). -/
def writeBytes (msg : CStr) (n : Nat) : CStr := (msg ++ ['\x00']).take n

/-- The output of `printf("%d", n)` for a non-negative `n`. -/
def printInt (n : Nat) : CStr := Nat.toDigits 10 n

def handleSigInt (s : Shell) : Shell :=
  { s with stdout := s.stdout ++ writeBytes "\n".toList 2 }

def handleSigStp_on (s : Shell) : Shell :=
  { s with stdout := s.stdout ++ writeBytes "\nExiting foreground-only mode\n".toList 30,
           sigtstp := .handler .handleSigStp_off,
           v_AllowBackground := 1 }

def handleSigStp_off (s : Shell) : Shell :=
  { s with stdout := s.stdout
             ++ writeBytes "\nEntering foreground-only mode (& is now ignored)\n".toList 50,
           sigtstp := .handler .handleSigStp_on,
           v_AllowBackground := 0 }

def registerSignalHandlers (s : Shell) : Shell :=
  { s with sigint := .handler .handleSigInt,
           sigtstp := .handler .handleSigStp_off,
           saChld := { sa_handler := .SIG_IGN, sa_mask := sigfillset, sa_flags := 0 } }

def runHandler : Handler → Shell → Shell
  | .handleSigInt => handleSigInt
  | .handleSigStp_on => handleSigStp_on
  | .handleSigStp_off => handleSigStp_off

/-- Delivery of SIGTSTP to the interpreter once its handlers are registered: the installed
handler runs. -/
def deliverSIGTSTP (s : Shell) : Shell :=
  match s.sigtstp with
  | .handler h => runHandler h s
  | _ => s

/-- Delivery of SIGINT to the interpreter. -/
def deliverSIGINT (s : Shell) : Shell :=
  match s.sigint with
  | .handler h => runHandler h s
  | _ => s

/-- The call `sigprocmask(SIG_BLOCK, set, NULL)`; SIGKILL and SIGSTOP cannot be blocked. -/
def sigprocmaskBlock (mask set : SigSet) : SigSet :=
  mask ||| (set &&& (sigfillset ^^^ (2 ^ SIGKILL ||| 2 ^ SIGSTOP)))

/-- The call `sigprocmask(SIG_UNBLOCK, set, NULL)`. -/
def sigprocmaskUnblock (mask set : SigSet) : SigSet :=
  mask ^^^ (mask &&& set)

/-! ## Wait status words (`<sys/wait.h>`, Linux) -/

def WTERMSIG (status : Nat) : Nat := status &&& 0x7f
def WEXITSTATUS (status : Nat) : Nat := (status &&& 0xff00) >>> 8
def WIFEXITED (status : Nat) : Bool := WTERMSIG status == 0
/-- The macro is `((signed char) ((status & 0x7f) + 1) >> 1) > 0`: the sum is 128, which
is negative as a signed char, exactly for the "stopped" code `0x7f`. -/
def WIFSIGNALED (status : Nat) : Bool :=
  let t := (status &&& 0x7f) + 1
  t < 128 && (t >>> 1) > 0

/-! ## `main.c`: status translation, reaping, built-ins -/

/-- The function `processExitStatus(status, printExit)`: the value returned and the text
printed to standard output. -/
def processExitStatus (status printExit : Nat) : Nat × CStr :=
  if WIFEXITED status then
    (WEXITSTATUS status,
      if printExit ≠ 0 then "exit value ".toList ++ printInt (WEXITSTATUS status) ++ ['\n']
      else [])
  else if WIFSIGNALED status then
    (WTERMSIG status, "terminated by signal ".toList ++ printInt (WTERMSIG status) ++ ['\n'])
  else (0, [])

/-- The function `cleanUpChild`. `reaped` lists the `(pid, status)` pairs the successive
`waitpid(-1, &status, WNOHANG)` calls return before one returns 0 or -1. -/
def cleanUpChild : List (Nat × Nat) → Shell → Shell
  | [], s => s
  | (pid, status) :: more, s =>
    cleanUpChild more
      { s with stdout := s.stdout ++ "background pid ".toList ++ printInt pid
                 ++ " is done: ".toList ++ (processExitStatus status 1).2 }

def builtinCmd : List CStr := ["cd".toList, "exit".toList, "status".toList]

/-- The function `handleBuiltInCommand(command, args)`: the return value and the state
after it. `none`: `command` is not a pointer to a string (NULL, or a slot never written),
and `strcmp` reads through it. -/
def handleBuiltInCommand (s : Shell) (command : Option (Option CStr))
    (args : List (Option CStr)) : Option (Nat × Shell) :=
  match command with
  | some (some name) =>
    match builtinCmd.indexOf name with
    | 0 => some (1, { s with chdirs := s.chdirs ++ [(args.get? 1).join] })
    | 1 => some (1, { s with shouldBreakShell := 1 })
    | 2 => some (1, { s with stdout := s.stdout ++ "exit status ".toList
                                ++ printInt s.lastStatus ++ ['\n'] })
    | _ => some (0, s)
  | _ => none

/-! ## `main.c`: the process launcher -/

/-- How a descriptor was opened. -/
inductive OpenMode where
  | O_RDONLY
  | O_WRONLY
  | O_WRONLY_CREAT_TRUNC (perm : Nat)
  deriving DecidableEq, Repr

/-- What a standard stream of the child refers to. -/
inductive Stream where
  /-- The descriptor the child got from the interpreter at `fork`. -/
  | inherited
  /-- A file the child opened and duplicated onto the standard slot. -/
  | opened (path : CStr) (mode : OpenMode)
  deriving DecidableEq, Repr

def devNull : CStr := "/dev/null".toList

/-- The answers of the operating system during one `execCommand`. -/
structure ExecOS where
  /-- The parent's result of `fork`: `none` is -1, `some pid` the pid of the new child. -/
  fork : Option Nat
  /-- The result of `waitpid(pid, &status, 0)`: `none` is -1, `some status` the status word. -/
  waitpid : Option Nat
  /-- Whether `open` fails on a path. -/
  openFails : CStr → Bool
  /-- Whether `dup2` onto a standard slot fails. -/
  dup2Fails : Nat → Bool
  /-- Whether `execvp` fails. -/
  execFails : Bool
  /-- The text `perror` prints for the current `errno`. -/
  strerror : CStr

/-- The child process: its copy of the interpreter state and its standard streams. -/
structure Child where
  proc : Shell
  stdin : Stream
  stdout : Stream
  deriving DecidableEq, Repr

/-- How the child branch of `execCommand` ends. -/
inductive ChildEnd where
  /-- The call `execvp(file, argv)` replaced the image of the child in state `c`. -/
  | exec (c : Child) (file : Option (Option CStr)) (argv : List (Option CStr))
  /-- The child called `_exit(code)` in state `c`. -/
  | exited (code : Nat) (c : Child)
  deriving DecidableEq, Repr

def EXIT_FAILURE : Nat := 1

/-- The child writes `text` to standard error. -/
def Child.eprint (c : Child) (text : CStr) : Child :=
  { c with proc := { c.proc with stderr := c.proc.stderr ++ text } }

/-- The call `sigaction(sig, &sa, NULL)` in the child for SIGINT or SIGTSTP. -/
def Child.sigaction (c : Child) (sig : Nat) (sa : Sigaction) : Child :=
  if sig = SIGINT then { c with proc := { c.proc with sigint := sa.sa_handler } }
  else if sig = SIGTSTP then { c with proc := { c.proc with sigtstp := sa.sa_handler } }
  else c

/-- The steps `open`, `dup2`, `fcntl` of one redirection onto the slot `fd` (0 or 1).
`report` is the text printed before `perror` when `open` fails. `Except.error` carries
the state in which the child calls `_exit(EXIT_FAILURE)`. -/
def redirect (os : ExecOS) (c : Child) (path : Option CStr) (mode : OpenMode) (fd : Nat)
    (report : CStr) : Except Child Child :=
  match path with
  | none => .error (c.eprint (report ++ os.strerror ++ ['\n']))
  | some p =>
    if os.openFails p then .error (c.eprint (report ++ os.strerror ++ ['\n']))
    else if os.dup2Fails fd then .error (c.eprint ("dup2: ".toList ++ os.strerror ++ ['\n']))
    else if fd = 0 then .ok { c with stdin := .opened p mode }
    else .ok { c with stdout := .opened p mode }

/-- The text `fprintf(stderr, "%s: ", path)` prints (glibc prints `(null)` for NULL). -/
def pathLabel (path : Option CStr) : CStr :=
  (path.getD "(null)".toList) ++ ": ".toList

/-- Lines 250 to 263 of the child branch: the input redirection. -/
def childRedirectInput (os : ExecOS) (cmd : Command) (c : Child) : Except Child Child :=
  if cmd.mask &&& INPUT_REDIRECT_MASK ≠ 0 then
    redirect os c cmd.in_file .O_RDONLY 0 (pathLabel cmd.in_file)
  else .ok c

/-- Lines 264 to 277 of the child branch: the output redirection. -/
def childRedirectOutput (os : ExecOS) (cmd : Command) (c : Child) : Except Child Child :=
  if cmd.mask &&& OUTPUT_REDIRECT_MASK ≠ 0 then
    redirect os c cmd.out_file (.O_WRONLY_CREAT_TRUNC OUTPUT_REDIRECT_PERM) 1
      (pathLabel cmd.out_file)
  else .ok c

/-- Lines 282 to 306 of the child branch: a background child without a redirection gets
the null device, standard output first. -/
def childNullDevice (os : ExecOS) (cmd : Command) (c : Child) : Except Child Child :=
  match (if ¬ (cmd.mask &&& OUTPUT_REDIRECT_MASK ≠ 0) then
      redirect os c (some devNull) .O_WRONLY 1 "open: ".toList
    else .ok c) with
  | .error e => .error e
  | .ok c =>
    if ¬ (cmd.mask &&& INPUT_REDIRECT_MASK ≠ 0) then
      redirect os c (some devNull) .O_RDONLY 0 "open: ".toList
    else .ok c

/-- Lines 278 to 314 of the child branch: the signal dispositions, and for a background
child the null device. -/
def childSignals (os : ExecOS) (cmd : Command) (c : Child) : Except Child Child :=
  if cmd.mask &&& BACKGROUND_MASK ≠ 0 then
    let c := c.sigaction SIGINT c.proc.saChld
    let c := c.sigaction SIGTSTP c.proc.saChld
    childNullDevice os cmd c
  else
    let c := { c with proc := { c.proc with saChld := { c.proc.saChld with sa_handler := .SIG_IGN } } }
    let c := c.sigaction SIGTSTP c.proc.saChld
    let c := { c with proc := { c.proc with saChld := { c.proc.saChld with sa_handler := .SIG_DFL } } }
    let c := c.sigaction SIGINT c.proc.saChld
    .ok c

/-- The child branch of `execCommand` up to the call of `execvp` (lines 250 to 314): the
state of the child when it calls `execvp`, or (`Except.error`) the state in which it
called `_exit(EXIT_FAILURE)` before. The child starts as a copy of the interpreter `s`. -/
def childSetup (os : ExecOS) (s : Shell) (cmd : Command) : Except Child Child :=
  match childRedirectInput os cmd { proc := s, stdin := .inherited, stdout := .inherited } with
  | .error e => .error e
  | .ok c =>
    match childRedirectOutput os cmd c with
    | .error e => .error e
    | .ok c => childSignals os cmd c

/-- The whole child branch of `execCommand`. -/
def runChild (os : ExecOS) (s : Shell) (cmd : Command) : ChildEnd :=
  match childSetup os s cmd with
  | .error c => .exited EXIT_FAILURE c
  | .ok c =>
    if os.execFails then
      .exited EXIT_FAILURE
        (c.eprint (pathLabel (cmd.argv.head?.join) ++ os.strerror ++ ['\n']))
    else .exec c cmd.argv.head? cmd.argv

/-- What one call of `execCommand` leaves behind: its return value, the interpreter
afterwards, and the fate of the child if one was created. -/
structure ExecResult where
  ret : Int
  shell : Shell
  child : Option ChildEnd
  deriving DecidableEq, Repr

/-- The function `execCommand(cmd)`. `none`: `argv[0]` is not a string and
`handleBuiltInCommand` reads through it. The memory released by `freeArgv` is not
modelled. -/
def execCommand (os : ExecOS) (s : Shell) (cmd : Command) : Option ExecResult :=
  match handleBuiltInCommand s cmd.argv.head? cmd.argv with
  | none => none
  | some (handled, s') =>
    if handled ≠ 0 then some { ret := 0, shell := s', child := none }
    else
      match os.fork with
      | none => some { ret := -1, shell := s', child := none }
      | some pid =>
        let child := runChild os s' cmd
        if cmd.mask &&& BACKGROUND_MASK ≠ 0 then
          some { ret := 0, child := some child,
                 shell := { s' with stdout := s'.stdout
                              ++ "background process started with pid ".toList
                              ++ printInt pid ++ ['\n'] } }
        else
          let s1 := { s' with sigmask := sigprocmaskBlock s'.sigmask s'.saChld.sa_mask }
          match os.waitpid with
          | none => some { ret := -1, shell := s1, child := some child }
          | some status =>
            let r := processExitStatus status 0
            let s2 := { s1 with lastStatus := r.1, stdout := s1.stdout ++ r.2 }
            some { ret := 0, child := some child,
                   shell := { s2 with sigmask := sigprocmaskUnblock s2.sigmask s2.saChld.sa_mask } }

/-- Lines 404 to 412 of the main loop: parse the line and, only when `parseCommand`
returned 0, execute the command. `none`: the interpreter left defined behaviour. -/
def dispatch (os : ExecOS) (s : Shell) (line : CStr) : Option (Shell × Option ChildEnd) :=
  match parseCommand s.parentPidStr s.v_AllowBackground line with
  | .fail err => some ({ s with stderr := s.stderr ++ err }, none)
  | .ok cmd =>
    match execCommand os s cmd with
    | none => none
    | some r =>
      if r.ret = -1 then
        some ({ r.shell with stderr := r.shell.stderr ++ "exec: ".toList ++ os.strerror ++ ['\n'] },
              r.child)
      else some (r.shell, r.child)
  | .overflow => none
  | .diverges => none

/-- What can happen to the interpreter between two prompts. -/
inductive Event where
  /-- A command is executed. -/
  | command (os : ExecOS) (cmd : Command)
  /-- The reaper collects the finished children `reaped`. -/
  | reap (reaped : List (Nat × Nat))
  /-- SIGTSTP is delivered. -/
  | sigtstp
  /-- SIGINT is delivered. -/
  | sigint

/-- The interpreter after one event; `none` when `execCommand` left defined behaviour. -/
def Shell.step (s : Shell) : Event → Option Shell
  | .command os cmd => (execCommand os s cmd).map (·.shell)
  | .reap reaped => some (cleanUpChild reaped s)
  | .sigtstp => some (deliverSIGTSTP s)
  | .sigint => some (deliverSIGINT s)

/-- The interpreter after a sequence of events. -/
def Shell.run : List Event → Shell → Option Shell
  | [], s => some s
  | e :: es, s =>
    match s.step e with
    | none => none
    | some s' => Shell.run es s'

/-! ## Words of the specification about the signal controller -/

/-- The interpreter after `n` deliveries of SIGTSTP. -/
def deliveries : Nat → Shell → Shell
  | 0, s => s
  | n + 1, s => deliverSIGTSTP (deliveries n s)

/-- The interpreter `n` deliveries of SIGTSTP after `registerSignalHandlers`. -/
def reached (pid : Nat) (inheritedMask : SigSet) (n : Nat) : Shell :=
  deliveries n (registerSignalHandlers (Shell.start pid inheritedMask))

/-- The notice the transition table gives for the current mode: `v_AllowBackground = 1`
is the mode "background-allowed", 0 the mode "foreground-only". -/
def transitionNotice (v_AllowBackground : Nat) : CStr :=
  if v_AllowBackground = 1 then "Entering foreground-only mode (& is now ignored)".toList
  else "Exiting foreground-only mode".toList

/-- The handler a transition out of the current mode installs. -/
def nextHandler (v_AllowBackground : Nat) : Handler :=
  if v_AllowBackground = 1 then .handleSigStp_on else .handleSigStp_off

/-! ## Concrete inputs used to exercise the theorems -/

/-- The interpreter with pid 4217 right after `registerSignalHandlers`, no signal blocked. -/
def sampleShell : Shell := registerSignalHandlers (Shell.start 4217 0)

/-- An operating system on which `fork` creates the child 4300 and no call in the child
fails; `waitpid` answers as given. -/
def sampleOS (waitpid : Option Nat) : ExecOS :=
  { fork := some 4300, waitpid := waitpid, openFails := fun _ => false,
    dup2Fails := fun _ => false, execFails := false, strerror := "ECHILD".toList }

/-- The command `parseCommand` builds from the line `ls`. -/
def sampleForeground : Command :=
  { argv := [some "ls".toList, none], argc := 1, in_file := none, out_file := none, mask := 0 }

/-- The command `parseCommand` builds from the line `sort < in &` while background
execution is allowed. -/
def sampleBackground : Command :=
  { argv := [some "sort".toList, none], argc := 1, in_file := some "in".toList,
    out_file := none, mask := 3 }

/-! ## Facts about the string primitives -/

theorem strstr_split : ∀ (hay needle : CStr) (pos : Nat), strstr hay needle = some pos →
    hay = hay.take pos ++ needle ++ hay.drop (pos + needle.length)
  | [], needle, pos, h => by
    unfold strstr at h
    split at h
    · rename_i hp
      have : needle = [] := by
        cases needle with
        | nil => rfl
        | cons a l => simp [List.isPrefixOf] at hp
      subst this; simp
    · simp at h
  | c :: cs, needle, pos, h => by
    unfold strstr at h
    split at h
    · rename_i hp
      have hpos : pos = 0 := by simpa using h.symm
      subst hpos
      obtain ⟨t, ht⟩ := List.isPrefixOf_iff_prefix.mp hp
      rw [← ht]; simp
    · cases hr : strstr cs needle with
      | none => simp [hr] at h
      | some q =>
        simp [hr] at h
        subst h
        have ih := strstr_split cs needle q hr
        simp only [List.take_succ_cons, List.cons_append]
        rw [show q + 1 + needle.length = (q + needle.length) + 1 by omega, List.drop_succ_cons]
        exact congrArg (c :: ·) ih

theorem replaceAll_cons_ne (pid : CStr) (c : Char) (rest : CStr) (h : c ≠ '$') :
    replaceAllPlaceholders pid (c :: rest) = c :: replaceAllPlaceholders pid rest := by
  cases rest with
  | nil => simp [replaceAllPlaceholders]
  | cons d ds => simp [replaceAllPlaceholders, h]

theorem replaceAll_dollar_ne (pid : CStr) (c d : Char) (rest : CStr) (h : d ≠ '$') :
    replaceAllPlaceholders pid (c :: d :: rest) = c :: replaceAllPlaceholders pid (d :: rest) := by
  simp [replaceAllPlaceholders, h]

theorem replaceAll_append_clean (pid : CStr) : ∀ (p rest : CStr), (∀ c ∈ p, c ≠ '$') →
    replaceAllPlaceholders pid (p ++ rest) = p ++ replaceAllPlaceholders pid rest
  | [], rest, _ => by simp
  | c :: p, rest, h => by
    have hc : c ≠ '$' := h c (by simp)
    have ih := replaceAll_append_clean pid p rest (fun x hx => h x (by simp [hx]))
    simp only [List.cons_append]
    rw [replaceAll_cons_ne pid c _ hc, ih]

theorem strstr_pid_zero (cs : CStr) (h : CMD_PID_TOKEN.isPrefixOf cs = true) :
    ∃ rest, cs = '$' :: '$' :: rest := by
  obtain ⟨t, ht⟩ := List.isPrefixOf_iff_prefix.mp h
  exact ⟨t, by rw [← ht]; rfl⟩

/-- One round of the loop of `expandVariable` leaves the specified result unchanged and
consumes two dollar signs. -/
theorem replaceString_step (pid : CStr) (hp : ∀ c ∈ pid, c ≠ '$') :
    ∀ (arg : CStr) (pos : Nat), strstr arg CMD_PID_TOKEN = some pos →
      replaceAllPlaceholders pid (replaceString arg CMD_PID_TOKEN pid).2
          = replaceAllPlaceholders pid arg
        ∧ (replaceString arg CMD_PID_TOKEN pid).2.count '$' + 2 = arg.count '$'
        ∧ ((replaceString arg CMD_PID_TOKEN pid).2.head? = arg.head? ∨ pos = 0)
  | [], pos, h => by simp [strstr, CMD_PID_TOKEN, List.isPrefixOf] at h
  | c :: cs, pos, h => by
    by_cases hpre : CMD_PID_TOKEN.isPrefixOf (c :: cs) = true
    · obtain ⟨rest, hrest⟩ := strstr_pid_zero _ hpre
      have hpos : pos = 0 := by
        unfold strstr at h; rw [if_pos hpre] at h; simpa using h.symm
      have hcount : pid.count '$' = 0 := List.count_eq_zero.mpr (fun hm => hp _ hm rfl)
      rw [hrest] at h ⊢
      simp only [replaceString, h, hpos]
      refine ⟨?_, ?_, Or.inr trivial⟩
      · simp only [List.take_zero, List.nil_append, CMD_PID_TOKEN, List.length_cons,
          List.length_nil, Nat.zero_add, List.drop_succ_cons, List.drop_zero]
        rw [replaceAll_append_clean pid pid rest hp]
        simp [replaceAllPlaceholders]
      · simp [CMD_PID_TOKEN, hcount]
    · have hrec : (strstr cs CMD_PID_TOKEN).map (· + 1) = some pos := by
        unfold strstr at h; rw [if_neg hpre] at h; exact h
      cases hr : strstr cs CMD_PID_TOKEN with
      | none => simp [hr] at hrec
      | some q =>
        have ih := replaceString_step pid hp cs q hr
        have hq : pos = q + 1 := by simpa [hr] using hrec.symm
        have hrepl : (replaceString (c :: cs) CMD_PID_TOKEN pid).2
            = c :: (replaceString cs CMD_PID_TOKEN pid).2 := by
          simp only [replaceString, h, hr, hq, List.take_succ_cons, List.cons_append]
          rw [show q + 1 + CMD_PID_TOKEN.length = (q + CMD_PID_TOKEN.length) + 1 by omega,
            List.drop_succ_cons]
        rw [hrepl]
        refine ⟨?_, ?_, Or.inl rfl⟩
        · by_cases hc : c = '$'
          · -- `cs` cannot start with a dollar sign
            cases cs with
            | nil => simp [strstr, CMD_PID_TOKEN, List.isPrefixOf] at hr
            | cons d ds =>
              have hd : d ≠ '$' := by
                intro hd; apply hpre; subst hc; subst hd
                simp [CMD_PID_TOKEN, List.isPrefixOf]
              have hq0 : q ≠ 0 := by
                intro hq0; subst hq0
                unfold strstr at hr
                by_cases h2 : CMD_PID_TOKEN.isPrefixOf (d :: ds) = true
                · obtain ⟨r, hr2⟩ := strstr_pid_zero _ h2
                  simp at hr2; exact hd hr2.1
                · rw [if_neg h2] at hr
                  cases h3 : strstr ds CMD_PID_TOKEN <;> simp [h3] at hr
              have hhead := ih.2.2.resolve_right hq0
              cases hX : (replaceString (d :: ds) CMD_PID_TOKEN pid).2 with
              | nil => rw [hX] at hhead; simp at hhead
              | cons e es =>
                rw [hX] at hhead ih
                have he : e = d := by simpa using hhead
                subst he
                rw [replaceAll_dollar_ne pid c e es hd, replaceAll_dollar_ne pid c e ds hd, ih.1]
          · rw [replaceAll_cons_ne pid c _ hc, replaceAll_cons_ne pid c _ hc, ih.1]
        · have := ih.2.1
          simp only [List.count_cons]
          omega

theorem replaceAll_of_strstr_none (pid : CStr) : ∀ (arg : CStr),
    strstr arg CMD_PID_TOKEN = none → replaceAllPlaceholders pid arg = arg
  | [], _ => rfl
  | [_], _ => rfl
  | c :: d :: rest, h => by
    unfold strstr at h
    by_cases hpre : CMD_PID_TOKEN.isPrefixOf (c :: d :: rest) = true
    · rw [if_pos hpre] at h; simp at h
    · rw [if_neg hpre] at h
      have hrest : strstr (d :: rest) CMD_PID_TOKEN = none := by simpa using h
      have hcd : ¬ (c = '$' ∧ d = '$') := by
        rintro ⟨rfl, rfl⟩
        exact hpre (by simp [CMD_PID_TOKEN, List.isPrefixOf])
      simp only [replaceAllPlaceholders, if_neg hcd]
      rw [replaceAll_of_strstr_none pid (d :: rest) hrest]

/-- With a pid string free of dollar signs the loop of `expandVariable` ends once the fuel
exceeds half the number of dollar signs of the argument, with the specified result. -/
theorem expandVariableLoop_clean (pid : CStr) (hp : ∀ c ∈ pid, c ≠ '$') :
    ∀ (fuel : Nat) (arg : CStr), arg.count '$' < 2 * fuel →
      expandVariableLoop pid fuel arg = some (replaceAllPlaceholders pid arg)
  | 0, _, h => by omega
  | fuel + 1, arg, h => by
    unfold expandVariableLoop
    cases hs : strstr arg CMD_PID_TOKEN with
    | none => simp [replaceAll_of_strstr_none pid arg hs]
    | some pos =>
      obtain ⟨h1, h2, _⟩ := replaceString_step pid hp arg pos hs
      simp only
      rw [expandVariableLoop_clean pid hp fuel _ (by omega), h1]

theorem expandVariableLoop_result (pid : CStr) : ∀ (fuel : Nat) (arg r : CStr),
    expandVariableLoop pid fuel arg = some r → strstr r CMD_PID_TOKEN = none
  | 0, _, _, h => by simp [expandVariableLoop] at h
  | fuel + 1, arg, r, h => by
    unfold expandVariableLoop at h
    cases hs : strstr arg CMD_PID_TOKEN with
    | none => rw [hs] at h; simp at h; subst h; exact hs
    | some pos => rw [hs] at h; exact expandVariableLoop_result pid fuel _ r h

theorem isPidStr_clean (pid : CStr) (h : isPidStr pid) : ∀ c ∈ pid, c ≠ '$' := by
  intro c hc heq
  have := h.2 c hc
  subst heq
  revert this
  decide

theorem expandVariableLoop_digits (pid : CStr) (h : isPidStr pid) (fuel : Nat) (arg : CStr)
    (hf : arg.length < fuel) :
    expandVariableLoop pid fuel arg = some (replaceAllPlaceholders pid arg) :=
  expandVariableLoop_clean pid (isPidStr_clean pid h) fuel arg
    (by have := List.count_le_length '$' arg; omega)

theorem expandVariable_digits (pid : CStr) (h : isPidStr pid) (arg : CStr) :
    expandVariable pid arg = some (replaceAllPlaceholders pid arg) :=
  expandVariableLoop_digits pid h _ arg (Nat.lt_succ_self _)

theorem digitChar_isDigit (d : Nat) (h : d < 10) : (Nat.digitChar d).isDigit = true := by
  interval_cases d <;> decide

theorem toDigitsCore_isDigit : ∀ (fuel n : Nat) (acc : List Char),
    (∀ c ∈ acc, c.isDigit = true) → ∀ c ∈ Nat.toDigitsCore 10 fuel n acc, c.isDigit = true
  | 0, _, acc, h => by simpa [Nat.toDigitsCore] using h
  | fuel + 1, n, acc, h => by
    have hd : (Nat.digitChar (n % 10)).isDigit = true :=
      digitChar_isDigit _ (Nat.mod_lt _ (by decide))
    have hacc : ∀ c ∈ Nat.digitChar (n % 10) :: acc, c.isDigit = true := by
      intro c hc
      rcases List.mem_cons.mp hc with rfl | hc
      · exact hd
      · exact h c hc
    unfold Nat.toDigitsCore
    simp only
    split
    · exact hacc
    · exact toDigitsCore_isDigit fuel _ _ hacc

theorem toDigitsCore_ne_nil : ∀ (fuel n : Nat) (acc : List Char),
    (fuel ≠ 0 ∨ acc ≠ []) → Nat.toDigitsCore 10 fuel n acc ≠ []
  | 0, _, acc, h => by
    rcases h with h | h
    · exact absurd rfl h
    · simpa [Nat.toDigitsCore] using h
  | fuel + 1, n, acc, _ => by
    unfold Nat.toDigitsCore
    simp only
    split
    · simp
    · exact toDigitsCore_ne_nil fuel _ _ (Or.inr (by simp))

/-- The string `main` stores in `parentPidStr` is a non-empty string of decimal digits. -/
theorem pidString_isPidStr (pid : Nat) : isPidStr (pidString pid) :=
  ⟨toDigitsCore_ne_nil _ _ _ (Or.inl (by omega)),
   toDigitsCore_isDigit _ _ _ (by simp)⟩

/-- C3: for a pid string that is a non-empty string of decimal digits, `expandVariable`
terminates (every fuel above the length of the argument gives the same result) and returns
the argument with each occurrence of the placeholder, taken left to right without overlap,
replaced by the pid string; the result holds no occurrence of the placeholder, and an
argument without the placeholder is returned unchanged. -/
theorem expandVariable_replaces_all (pidStr arg : CStr) (hpid : isPidStr pidStr) :
    expandVariable pidStr arg = some (replaceAllPlaceholders pidStr arg)
    ∧ (∀ fuel, arg.length < fuel →
        expandVariableLoop pidStr fuel arg = some (replaceAllPlaceholders pidStr arg))
    ∧ strstr (replaceAllPlaceholders pidStr arg) CMD_PID_TOKEN = none
    ∧ (strstr arg CMD_PID_TOKEN = none → expandVariable pidStr arg = some arg) := by
  have h1 := expandVariable_digits pidStr hpid arg
  refine ⟨h1, fun fuel hf => expandVariableLoop_digits pidStr hpid fuel arg hf,
    expandVariableLoop_result pidStr _ arg _ h1, fun hn => ?_⟩
  rw [h1, replaceAll_of_strstr_none pidStr arg hn]

theorem expandVariable_replaces_all_witness :
    isPidStr "4217".toList
    ∧ expandVariable "4217".toList "a$$$b$$".toList = some "a4217$b4217".toList
    ∧ strstr "a4217$b4217".toList CMD_PID_TOKEN = none
    ∧ expandVariable "4217".toList "plain$".toList = some "plain$".toList :=
  have h := expandVariable_replaces_all "4217".toList "a$$$b$$".toList (by decide)
  have h2 := expandVariable_replaces_all "4217".toList "plain$".toList (by decide)
  ⟨by decide, h.1.trans (by decide), by decide, h2.2.2.2 (by decide)⟩

/-! ## Facts about the tokeniser -/

theorem strtok_space (s : CStr) : strtok (' ' :: s) = strtok s := by
  simp [strtok]

theorem strtok_cons (c : Char) (s : CStr) (hc : c ≠ ' ') :
    strtok (c :: s)
      = some (c :: s.takeWhile (· != ' '), (s.dropWhile (· != ' ')).drop 1) := by
  simp [strtok, hc, List.dropWhile_cons, List.takeWhile_cons]

theorem strtok_rest_lt : ∀ (s token rest : CStr), strtok s = some (token, rest) →
    rest.length < s.length
  | [], token, rest, h => by simp [strtok] at h
  | c :: s, token, rest, h => by
    by_cases hc : c = ' '
    · subst hc
      rw [strtok_space] at h
      have := strtok_rest_lt s token rest h
      simp only [List.length_cons]; omega
    · rw [strtok_cons c s hc] at h
      simp only [Option.some.injEq, Prod.mk.injEq] at h
      rw [← h.2]
      have h1 : ((s.dropWhile (· != ' ')).drop 1).length ≤ (s.dropWhile (· != ' ')).length := by
        simp
      have h2 := (List.dropWhile_sublist (· != ' ') (l := s)).length_le
      simp only [List.length_cons]; omega

/-- Fuel beyond the length of the text does not change the tokens. -/
theorem strtokAll_fuel : ∀ (fuel : Nat) (s : CStr), s.length ≤ fuel →
    strtokAll fuel s = strtokAll s.length s
  | 0, s, h => by
    have : s.length = 0 := by omega
    rw [this]
  | fuel + 1, s, h => by
    cases hs : strtok s with
    | none =>
      cases hl : s.length with
      | zero => simp [strtokAll, hs]
      | succ n => simp [strtokAll, hs]
    | some tr =>
      obtain ⟨token, rest⟩ := tr
      have hlt := strtok_rest_lt s token rest hs
      cases hl : s.length with
      | zero => omega
      | succ n =>
        simp only [strtokAll, hs]
        rw [strtokAll_fuel fuel rest (by omega), strtokAll_fuel n rest (by omega)]

theorem tokens_eq (s : CStr) :
    tokens s = match strtok s with
      | none => []
      | some (token, rest) => token :: tokens rest := by
  unfold tokens
  cases hs : strtok s with
  | none => cases hl : s.length <;> simp [strtokAll, hs]
  | some tr =>
    obtain ⟨token, rest⟩ := tr
    have hlt := strtok_rest_lt s token rest hs
    cases hl : s.length with
    | zero => omega
    | succ n =>
      simp only [strtokAll, hs]
      rw [strtokAll_fuel n rest (by omega)]

theorem tokens_nil : tokens [] = [] := rfl

theorem tokens_space (s : CStr) : tokens (' ' :: s) = tokens s := by
  rw [tokens_eq, strtok_space, ← tokens_eq]

theorem tokens_cons (c : Char) (s : CStr) (hc : c ≠ ' ') :
    tokens (c :: s)
      = (c :: s.takeWhile (· != ' ')) :: tokens ((s.dropWhile (· != ' ')).drop 1) := by
  rw [tokens_eq, strtok_cons c s hc]

theorem spaceSeparatedTokens_nil : spaceSeparatedTokens [] = [] := by
  simp [spaceSeparatedTokens, List.splitOn, List.splitOnP_nil]

theorem spaceSeparatedTokens_space (s : CStr) :
    spaceSeparatedTokens (' ' :: s) = spaceSeparatedTokens s := by
  simp [spaceSeparatedTokens, List.splitOn, List.splitOnP_cons]

theorem spaceSeparatedTokens_cons (c : Char) (s : CStr) (hc : c ≠ ' ') :
    spaceSeparatedTokens (c :: s)
      = (c :: s.takeWhile (· != ' '))
          :: spaceSeparatedTokens ((s.dropWhile (· != ' ')).drop 1) := by
  have hsplit : c :: s = (c :: s.takeWhile (· != ' ')) ++ s.dropWhile (· != ' ') := by
    simp [List.takeWhile_append_dropWhile]
  have hclean : ∀ x ∈ c :: s.takeWhile (· != ' '), ¬ ((x == ' ') = true) := by
    intro x hx
    rcases List.mem_cons.mp hx with rfl | hx
    · simpa using hc
    · have := List.mem_takeWhile_imp hx
      simpa using this
  cases hd : s.dropWhile (· != ' ') with
  | nil =>
    have htw : s.takeWhile (· != ' ') = s := by
      have := List.takeWhile_append_dropWhile (· != ' ') s
      rw [hd, List.append_nil] at this
      exact this
    rw [htw] at hclean ⊢
    simp only [spaceSeparatedTokens, List.splitOn]
    rw [List.splitOnP_eq_single _ _ hclean]
    simp [List.splitOnP_nil]
  | cons d ds =>
    have hdsp : d = ' ' := by
      have := List.head_dropWhile_not (· != ' ') s (by rw [hd]; simp)
      simp only [hd, List.head_cons] at this
      simpa using this
    subst hdsp
    rw [hd] at hsplit
    conv_lhs => rw [hsplit]
    simp only [spaceSeparatedTokens, List.splitOn]
    rw [List.splitOnP_first _ _ hclean ' ' (by simp)]
    simp

theorem tokens_eq_spaceSeparated_aux : ∀ (n : Nat) (line : CStr), line.length ≤ n →
    tokens line = spaceSeparatedTokens line
  | _, [], _ => by rw [tokens_nil, spaceSeparatedTokens_nil]
  | 0, _ :: _, h => by simp at h
  | n + 1, c :: s, h => by
    by_cases hc : c = ' '
    · subst hc
      rw [tokens_space, spaceSeparatedTokens_space]
      exact tokens_eq_spaceSeparated_aux n s (by simp at h; omega)
    · rw [tokens_cons c s hc, spaceSeparatedTokens_cons c s hc]
      congr 1
      refine tokens_eq_spaceSeparated_aux n _ ?_
      have h1 : ((s.dropWhile (· != ' ')).drop 1).length ≤ (s.dropWhile (· != ' ')).length := by
        simp
      have h2 := (List.dropWhile_sublist (· != ' ') (l := s)).length_le
      simp at h; omega

/-- The tokens `strtok` yields are the non-empty pieces of the line between spaces. -/
theorem tokens_eq_spaceSeparated (line : CStr) : tokens line = spaceSeparatedTokens line :=
  tokens_eq_spaceSeparated_aux line.length line (Nat.le_refl _)

/-! ## Facts about the scan -/

theorem plainTokens_op (token next : CStr) (rest : List CStr) (h : isRedirectOperator token) :
    plainTokens (token :: next :: rest) = plainTokens rest := by
  simp [plainTokens, h]

theorem plainTokens_plain (token : CStr) (rest : List CStr) (h : ¬ isRedirectOperator token) :
    plainTokens (token :: rest) = token :: plainTokens rest := by
  cases rest <;> simp [plainTokens, h]

theorem danglingOperator_op (token next : CStr) (rest : List CStr)
    (h : isRedirectOperator token) :
    danglingOperator (token :: next :: rest) = danglingOperator rest := by
  simp [danglingOperator, h]

theorem danglingOperator_plain (token : CStr) (rest : List CStr)
    (h : ¬ isRedirectOperator token) :
    danglingOperator (token :: rest) = danglingOperator rest := by
  cases rest <;> simp [danglingOperator, h]

theorem danglingOperator_last (token : CStr) (h : isRedirectOperator token) :
    danglingOperator [token] = some token := by
  simp [danglingOperator, h]

theorem plainTokens_of_no_operator : ∀ (toks : List CStr),
    (∀ t ∈ toks, ¬ isRedirectOperator t) → plainTokens toks = toks
  | [], _ => rfl
  | t :: rest, h => by
    rw [plainTokens_plain t rest (h t (by simp)),
      plainTokens_of_no_operator rest (fun x hx => h x (by simp [hx]))]

theorem danglingOperator_of_no_operator : ∀ (toks : List CStr),
    (∀ t ∈ toks, ¬ isRedirectOperator t) → danglingOperator toks = none
  | [], _ => rfl
  | t :: rest, h => by
    rw [danglingOperator_plain t rest (h t (by simp)),
      danglingOperator_of_no_operator rest (fun x hx => h x (by simp [hx]))]

theorem storeArg_end (argv : List (Option CStr)) (v : Option CStr) :
    storeArg argv argv.length v = argv ++ [v] := by
  simp [storeArg]

theorem parseLoop_gt (pid : CStr) (rest : List CStr) (cmd : Command) :
    parseLoop pid (['>'] :: rest) cmd =
      match rest with
      | [] => .fail "Error: no file name after >\n".toList
      | file :: rest' =>
        parseLoop pid rest'
          { cmd with mask := cmd.mask ||| OUTPUT_REDIRECT_MASK, out_file := some file } := by
  cases rest <;> simp [parseLoop]

theorem parseLoop_lt (pid : CStr) (rest : List CStr) (cmd : Command) :
    parseLoop pid (['<'] :: rest) cmd =
      match rest with
      | [] => .fail "Error: no file name after <\n".toList
      | file :: rest' =>
        parseLoop pid rest'
          { cmd with mask := cmd.mask ||| INPUT_REDIRECT_MASK, in_file := some file } := by
  cases rest <;> simp [parseLoop]

theorem parseLoop_plain (pid token : CStr) (rest : List CStr) (cmd : Command)
    (h : ¬ isRedirectOperator token) :
    parseLoop pid (token :: rest) cmd =
      match expandVariable pid token with
      | none => .diverges
      | some arg =>
        if cmd.argc < MAX_ARGS then
          parseLoop pid rest
            { cmd with argv := storeArg cmd.argv cmd.argc (some arg), argc := cmd.argc + 1 }
        else .overflow := by
  have h1 : token ≠ ['>'] := fun e => h (Or.inl e)
  have h2 : token ≠ ['<'] := fun e => h (Or.inr e)
  cases rest <;> simp [parseLoop, h1, h2]

theorem mask_facts : ∀ m : Nat, m < 8 →
    (m ||| OUTPUT_REDIRECT_MASK < 8 ∧ m ||| INPUT_REDIRECT_MASK < 8
      ∧ (m ||| OUTPUT_REDIRECT_MASK) &&& BACKGROUND_MASK = m &&& BACKGROUND_MASK
      ∧ (m ||| INPUT_REDIRECT_MASK) &&& BACKGROUND_MASK = m &&& BACKGROUND_MASK
      ∧ (m ||| OUTPUT_REDIRECT_MASK) &&& INPUT_REDIRECT_MASK = m &&& INPUT_REDIRECT_MASK
      ∧ (m ||| INPUT_REDIRECT_MASK) &&& OUTPUT_REDIRECT_MASK = m &&& OUTPUT_REDIRECT_MASK) := by
  decide

theorem LoopInv.store_gt (cmd : Command) (file : CStr) (h : LoopInv cmd) :
    LoopInv { cmd with mask := cmd.mask ||| OUTPUT_REDIRECT_MASK, out_file := some file } := by
  obtain ⟨a, b, c, d, e, f⟩ := mask_facts cmd.mask h.mask_lt
  exact ⟨h.argc_eq, h.argc_le, a, by simpa [c] using h.mask_even,
    by simpa [e] using h.in_some, by simp⟩

theorem LoopInv.store_lt (cmd : Command) (file : CStr) (h : LoopInv cmd) :
    LoopInv { cmd with mask := cmd.mask ||| INPUT_REDIRECT_MASK, in_file := some file } := by
  obtain ⟨a, b, c, d, e, f⟩ := mask_facts cmd.mask h.mask_lt
  exact ⟨h.argc_eq, h.argc_le, b, by simpa [d] using h.mask_even,
    by simp, by simpa [f] using h.out_some⟩

theorem LoopInv.store_arg (cmd : Command) (arg : CStr) (h : LoopInv cmd)
    (hlt : cmd.argc < MAX_ARGS) :
    LoopInv { cmd with argv := storeArg cmd.argv cmd.argc (some arg), argc := cmd.argc + 1 } := by
  refine ⟨?_, hlt, h.mask_lt, h.mask_even, h.in_some, h.out_some⟩
  simp only [h.argc_eq, storeArg_end, List.length_append, List.length_cons, List.length_nil]

/-- What a normal exit of the loop of `parseCommand` says about the state it leaves. -/
theorem parseLoop_ok_aux (pid : CStr) : ∀ (n : Nat) (toks : List CStr) (cmd cmd' : Command),
    toks.length ≤ n → LoopInv cmd → parseLoop pid toks cmd = .ok cmd' →
    LoopInv cmd' ∧ danglingOperator toks = none ∧
    ∃ args : List CStr,
      List.Forall₂ (fun t a => expandVariable pid t = some a) (plainTokens toks) args
      ∧ cmd'.argv = cmd.argv ++ args.map some
      ∧ ((∀ t ∈ toks, ¬ isRedirectOperator t) →
          cmd'.mask = cmd.mask ∧ cmd'.in_file = cmd.in_file ∧ cmd'.out_file = cmd.out_file)
  | _, [], cmd, cmd', _, hinv, h => by
    simp only [parseLoop, ParseResult.ok.injEq] at h
    subst h
    exact ⟨hinv, rfl, [], by simp [plainTokens], by simp, fun _ => ⟨rfl, rfl, rfl⟩⟩
  | 0, _ :: _, _, _, hn, _, _ => by simp at hn
  | n + 1, token :: rest, cmd, cmd', hn, hinv, h => by
    by_cases hop : isRedirectOperator token
    · have hno : ¬ ∀ t ∈ token :: rest, ¬ isRedirectOperator t := fun hall => hall token (by simp) hop
      cases rest with
      | nil =>
        rcases hop with rfl | rfl
        · rw [parseLoop_gt] at h; simp at h
        · rw [parseLoop_lt] at h; simp at h
      | cons file rest' =>
        have hlen : rest'.length ≤ n := by simp at hn; omega
        rw [plainTokens_op token file rest' hop, danglingOperator_op token file rest' hop]
        rcases hop with rfl | rfl
        · rw [parseLoop_gt] at h
          obtain ⟨h1, h2, args, h3, h4, _⟩ :=
            parseLoop_ok_aux pid n rest' _ cmd' hlen (hinv.store_gt cmd file) h
          exact ⟨h1, h2, args, h3, h4, fun hall => absurd hall hno⟩
        · rw [parseLoop_lt] at h
          obtain ⟨h1, h2, args, h3, h4, _⟩ :=
            parseLoop_ok_aux pid n rest' _ cmd' hlen (hinv.store_lt cmd file) h
          exact ⟨h1, h2, args, h3, h4, fun hall => absurd hall hno⟩
    · have hlen : rest.length ≤ n := by simp at hn; omega
      rw [parseLoop_plain pid token rest cmd hop] at h
      rw [plainTokens_plain token rest hop, danglingOperator_plain token rest hop]
      cases he : expandVariable pid token with
      | none => rw [he] at h; simp at h
      | some arg =>
        rw [he] at h
        by_cases hlt : cmd.argc < MAX_ARGS
        · simp only [if_pos hlt] at h
          obtain ⟨h1, h2, args, h3, h4, h5⟩ :=
            parseLoop_ok_aux pid n rest _ cmd' hlen (hinv.store_arg cmd arg hlt) h
          refine ⟨h1, h2, arg :: args, List.Forall₂.cons he h3, ?_, fun hall => ?_⟩
          · rw [h4, hinv.argc_eq, storeArg_end]; simp
          · exact h5 (fun t ht => hall t (by simp [ht]))
        · simp only [if_neg hlt] at h
          simp at h

/-- With a pid string of digits and room in `argv` for the plain arguments, the loop of
`parseCommand` either stops at the dangling redirection operator with its message, or
exits normally. -/
theorem parseLoop_total_aux (pid : CStr) (hpid : isPidStr pid) :
    ∀ (n : Nat) (toks : List CStr) (cmd : Command), toks.length ≤ n →
      cmd.argc + (plainTokens toks).length ≤ MAX_ARGS →
      (∀ op, danglingOperator toks = some op →
          parseLoop pid toks cmd = .fail (danglingMessage op))
      ∧ (danglingOperator toks = none → ∃ cmd', parseLoop pid toks cmd = .ok cmd')
  | _, [], cmd, _, _ => by
    simp [danglingOperator, parseLoop]
  | 0, _ :: _, _, hn, _ => by simp at hn
  | n + 1, token :: rest, cmd, hn, hcap => by
    by_cases hop : isRedirectOperator token
    · cases rest with
      | nil =>
        rw [danglingOperator_last token hop]
        rcases hop with rfl | rfl
        · rw [parseLoop_gt]
          exact ⟨fun op h => by simp at h; subst h; rfl, fun h => by simp at h⟩
        · rw [parseLoop_lt]
          exact ⟨fun op h => by simp at h; subst h; rfl, fun h => by simp at h⟩
      | cons file rest' =>
        have hlen : rest'.length ≤ n := by simp at hn; omega
        rw [plainTokens_op token file rest' hop] at hcap
        rw [danglingOperator_op token file rest' hop]
        rcases hop with rfl | rfl
        · rw [parseLoop_gt]
          exact parseLoop_total_aux pid hpid n rest' _ hlen hcap
        · rw [parseLoop_lt]
          exact parseLoop_total_aux pid hpid n rest' _ hlen hcap
    · have hlen : rest.length ≤ n := by simp at hn; omega
      rw [plainTokens_plain token rest hop] at hcap
      rw [parseLoop_plain pid token rest cmd hop, danglingOperator_plain token rest hop,
        expandVariable_digits pid hpid token]
      have hlt : cmd.argc < MAX_ARGS := by simp at hcap; omega
      simp only [if_pos hlt]
      exact parseLoop_total_aux pid hpid n rest _ hlen (by simp at hcap ⊢; omega)

theorem argv_last (args : List CStr) (x : CStr) :
    (args.map some).get? (args.length - 1) = some (some x) ↔ args.getLast? = some x := by
  rw [List.get?_eq_getElem?, List.getElem?_map, ← List.getLast?_eq_getElem?]
  cases args.getLast? <;> simp

theorem storeArg_last (args : List CStr) (h : args ≠ []) :
    storeArg (args.map some) (args.length - 1) none = args.dropLast.map some ++ [none] := by
  rcases List.eq_nil_or_concat args with h0 | ⟨init, a, rfl⟩
  · exact absurd h0 h
  · simp [storeArg, List.concat_eq_append]

theorem finish_mask_facts : ∀ m : Nat, m < 8 → m &&& BACKGROUND_MASK = 0 →
    ((m ||| (BACKGROUND_MASK &&& 1)) &&& BACKGROUND_MASK ≠ 0
      ∧ (m ||| (BACKGROUND_MASK &&& 0)) &&& BACKGROUND_MASK = 0
      ∧ (m ||| (BACKGROUND_MASK &&& 1)) &&& INPUT_REDIRECT_MASK = m &&& INPUT_REDIRECT_MASK
      ∧ (m ||| (BACKGROUND_MASK &&& 0)) &&& INPUT_REDIRECT_MASK = m &&& INPUT_REDIRECT_MASK
      ∧ (m ||| (BACKGROUND_MASK &&& 1)) &&& OUTPUT_REDIRECT_MASK = m &&& OUTPUT_REDIRECT_MASK
      ∧ (m ||| (BACKGROUND_MASK &&& 0)) &&& OUTPUT_REDIRECT_MASK = m &&& OUTPUT_REDIRECT_MASK
      ∧ m ||| (BACKGROUND_MASK &&& 1) < 8 ∧ m ||| (BACKGROUND_MASK &&& 0) < 8) := by
  decide

/-- What `parseCommand` does after its loop, in terms of the arguments the loop collected. -/
theorem parseFinish_ok (v : Nat) (cmd0 cmd : Command) (args : List CStr) (hinv : LoopInv cmd0)
    (hargv : cmd0.argv = args.map some) (h : parseFinish v cmd0 = .ok cmd) :
    args ≠ []
    ∧ (args.getLast? = some ['&'] →
        cmd = { cmd0 with argv := args.dropLast.map some ++ [none], argc := args.length - 1,
                          mask := cmd0.mask ||| (BACKGROUND_MASK &&& v) })
    ∧ (args.getLast? ≠ some ['&'] →
        cmd = { cmd0 with argv := args.map some ++ [none] } ∧ args.length < MAX_ARGS) := by
  have hargc : cmd0.argc = args.length := by rw [hinv.argc_eq, hargv, List.length_map]
  unfold parseFinish at h
  by_cases h0 : cmd0.argc = 0
  · rw [if_pos h0] at h; simp at h
  · rw [if_neg h0] at h
    have hne : args ≠ [] := by
      intro e; apply h0; rw [hargc, e]; rfl
    refine ⟨hne, ?_, ?_⟩
    · intro hlast
      have htest : cmd0.argv.get? (cmd0.argc - 1) = some (some ['&']) := by
        rw [hargv, hargc]; exact (argv_last args _).mpr hlast
      simp only [htest, if_true] at h
      have hlt : cmd0.argc - 1 < MAX_ARGS := by have := hinv.argc_le; omega
      rw [if_pos hlt] at h
      simp only [ParseResult.ok.injEq] at h
      rw [← h, hargv, hargc, storeArg_last args hne]
    · intro hlast
      have htest : ¬ cmd0.argv.get? (cmd0.argc - 1) = some (some ['&']) := by
        rw [hargv, hargc]; exact fun e => hlast ((argv_last args _).mp e)
      simp only [htest, if_false] at h
      by_cases hlt : cmd0.argc < MAX_ARGS
      · rw [if_pos hlt] at h
        simp only [ParseResult.ok.injEq] at h
        refine ⟨?_, by omega⟩
        rw [← h, hargv, hargc]
        have := storeArg_end (args.map some) none
        rw [List.length_map] at this
        rw [this]
      · rw [if_neg hlt] at h; simp at h

theorem LoopInv.init :
    LoopInv { argv := [], argc := 0, in_file := none, out_file := none, mask := 0 } :=
  ⟨rfl, by decide, by decide, by decide, by decide, by decide⟩

/-- Every successful parse in terms of the plain arguments the scan collected. -/
theorem parseCommand_ok (pid : CStr) (v : Nat) (line : CStr) (cmd : Command)
    (h : parseCommand pid v line = .ok cmd) :
    ∃ (cmd0 : Command) (args : List CStr), LoopInv cmd0 ∧ cmd0.argv = args.map some
      ∧ List.Forall₂ (fun t a => expandVariable pid t = some a) (plainTokens (tokens line)) args
      ∧ args ≠ []
      ∧ (args.getLast? = some ['&'] →
          cmd = { cmd0 with argv := args.dropLast.map some ++ [none], argc := args.length - 1,
                            mask := cmd0.mask ||| (BACKGROUND_MASK &&& v) })
      ∧ (args.getLast? ≠ some ['&'] →
          cmd = { cmd0 with argv := args.map some ++ [none] } ∧ args.length < MAX_ARGS) := by
  unfold parseCommand at h
  simp only at h
  split at h
  · simp at h
  · cases hl : parseLoop pid (tokens line)
        { argv := [], argc := 0, in_file := none, out_file := none, mask := 0 } with
    | ok cmd0 =>
      rw [hl] at h
      simp only at h
      obtain ⟨hinv, _, args, hall, hargv, _⟩ :=
        parseLoop_ok_aux pid _ (tokens line) _ cmd0 (Nat.le_refl _) LoopInv.init hl
      simp only [List.nil_append] at hargv
      obtain ⟨h1, h2, h3⟩ := parseFinish_ok v cmd0 cmd args hinv hargv h
      exact ⟨cmd0, args, hinv, hargv, hall, h1, h2, h3⟩
    | fail e => rw [hl] at h; simp at h
    | overflow => rw [hl] at h; simp at h
    | diverges => rw [hl] at h; simp at h


/-- C1: on every line `parseCommand` accepts, with `v_AllowBackground` 0 or 1, the
background bit of the command is set exactly when the last plain argument collected from
the line is `&` and `v_AllowBackground` is 1; a last argument `&` is removed from the
argument list whatever the flag; otherwise the list holds every collected argument, so an
`&` that is not last stays an ordinary argument and sets no bit. -/
theorem parseCommand_background (pid : CStr) (v : Nat) (hv : v = 0 ∨ v = 1) (line : CStr)
    (cmd : Command) (h : parseCommand pid v line = .ok cmd) :
    ∃ args : List CStr,
      List.Forall₂ (fun t a => expandVariable pid t = some a) (plainTokens (tokens line)) args
      ∧ (cmd.mask &&& BACKGROUND_MASK ≠ 0 ↔ (args.getLast? = some ['&'] ∧ v = 1))
      ∧ (args.getLast? = some ['&'] →
          cmd.argv = args.dropLast.map some ++ [none] ∧ cmd.argc = args.length - 1)
      ∧ (args.getLast? ≠ some ['&'] →
          cmd.argv = args.map some ++ [none] ∧ cmd.argc = args.length) := by
  obtain ⟨cmd0, args, hinv, hargv, hall, _, hstrip, hkeep⟩ := parseCommand_ok pid v line cmd h
  obtain ⟨f1, f0, _⟩ := finish_mask_facts cmd0.mask hinv.mask_lt hinv.mask_even
  refine ⟨args, hall, ?_, ?_, ?_⟩
  · by_cases hlast : args.getLast? = some ['&']
    · rw [hstrip hlast]
      rcases hv with rfl | rfl
      · exact ⟨fun hne => absurd f0 hne, fun hb => absurd hb.2 (by decide)⟩
      · exact ⟨fun _ => ⟨hlast, rfl⟩, fun _ => f1⟩
    · rw [(hkeep hlast).1]
      exact ⟨fun hne => absurd hinv.mask_even hne, fun hb => absurd hb.1 hlast⟩
  · intro hlast
    rw [hstrip hlast]
    exact ⟨rfl, rfl⟩
  · intro hlast
    rw [(hkeep hlast).1]
    refine ⟨rfl, ?_⟩
    simp only
    rw [hinv.argc_eq, hargv, List.length_map]

theorem parseCommand_background_witness :
    ∃ args : List CStr,
      List.Forall₂ (fun t a => expandVariable "4217".toList t = some a)
        (plainTokens (tokens "echo & $$ > out &".toList)) args
      ∧ ((5 : Nat) &&& BACKGROUND_MASK ≠ 0 ↔ (args.getLast? = some ['&'] ∧ 1 = 1))
      ∧ (args.getLast? = some ['&'] →
          [some "echo".toList, some ['&'], some "4217".toList, none]
              = args.dropLast.map some ++ [none]
            ∧ 3 = args.length - 1)
      ∧ (args.getLast? ≠ some ['&'] →
          [some "echo".toList, some ['&'], some "4217".toList, none] = args.map some ++ [none]
            ∧ 3 = args.length) :=
  parseCommand_background "4217".toList 1 (Or.inr rfl) "echo & $$ > out &".toList
    { argv := [some "echo".toList, some ['&'], some "4217".toList, none], argc := 3,
      in_file := none, out_file := some "out".toList, mask := 5 }
    (by decide)


theorem replaceAll_ne_nil (pid : CStr) (hp : pid ≠ []) : ∀ (t : CStr), t ≠ [] →
    replaceAllPlaceholders pid t ≠ []
  | [], h => absurd rfl h
  | [_], _ => by simp [replaceAllPlaceholders]
  | c :: d :: rest, _ => by
    simp only [replaceAllPlaceholders]
    split
    · simp [hp]
    · simp

theorem replaceAll_eq_amp (pid : CStr) (hpid : isPidStr pid) : ∀ (t : CStr),
    replaceAllPlaceholders pid t = ['&'] → t = ['&']
  | [], h => by simp [replaceAllPlaceholders] at h
  | [c], h => by simpa [replaceAllPlaceholders] using h
  | c :: d :: rest, h => by
    exfalso
    simp only [replaceAllPlaceholders] at h
    split at h
    · cases hp : pid with
      | nil => exact hpid.1 hp
      | cons p ps =>
        rw [hp] at h
        simp only [List.cons_append, List.cons.injEq] at h
        have hd := hpid.2 p (by rw [hp]; simp)
        rw [h.1] at hd
        revert hd; decide
    · simp only [List.cons.injEq] at h
      exact replaceAll_ne_nil pid hpid.1 (d :: rest) (by simp) h.2

/-- The loop of `parseCommand` on tokens without a redirection operator. -/
theorem parseLoop_plain_all (pid : CStr) (hpid : isPidStr pid) : ∀ (toks : List CStr)
    (cmd : Command), (∀ t ∈ toks, ¬ isRedirectOperator t) → cmd.argc = cmd.argv.length →
    cmd.argc ≤ MAX_ARGS →
    parseLoop pid toks cmd =
      if cmd.argc + toks.length ≤ MAX_ARGS then
        .ok { cmd with argv := cmd.argv ++ toks.map (fun t => some (replaceAllPlaceholders pid t)),
                       argc := cmd.argc + toks.length }
      else .overflow
  | [], cmd, _, _, hle => by
    simp [parseLoop, hle]
  | t :: rest, cmd, hno, hlen, hle => by
    rw [parseLoop_plain pid t rest cmd (hno t (by simp)), expandVariable_digits pid hpid t]
    simp only
    by_cases hlt : cmd.argc < MAX_ARGS
    · rw [if_pos hlt,
        parseLoop_plain_all pid hpid rest _ (fun x hx => hno x (by simp [hx]))
          (by simp [hlen, storeArg_end]) (by simp only; omega)]
      simp only [hlen, storeArg_end, List.length_cons, List.map_cons, List.append_assoc,
        List.singleton_append]
      have e : cmd.argv.length + 1 + rest.length = cmd.argv.length + (rest.length + 1) := by
        omega
      rw [e]
    · rw [if_neg hlt, if_neg (by simp only [List.length_cons]; omega)]

/-- The call `parseCommand` on a line without control tokens, in closed form. -/
theorem parseCommand_plain_eq (pid : CStr) (hpid : isPidStr pid) (v : Nat) (line : CStr)
    (hne : line ≠ []) (hc : line.head? ≠ some '#')
    (hctl : ∀ t ∈ tokens line, t ≠ ['<'] ∧ t ≠ ['>'] ∧ t ≠ ['&']) :
    parseCommand pid v line =
      if tokens line = [] then .fail []
      else if (tokens line).length < MAX_ARGS then
        .ok { argv := (tokens line).map (fun t => some (replaceAllPlaceholders pid t)) ++ [none],
              argc := (tokens line).length, in_file := none, out_file := none, mask := 0 }
      else .overflow := by
  have hno : ∀ t ∈ tokens line, ¬ isRedirectOperator t := by
    intro t ht hop
    rcases hop with e | e
    · exact (hctl t ht).2.1 e
    · exact (hctl t ht).1 e
  have hhead : ¬ (line.length = 0 ∨ line.head? = some CMD_COMMENT_TOKEN) := by
    rintro (h | h)
    · exact hne (List.length_eq_zero.mp h)
    · exact hc h
  unfold parseCommand
  simp only [if_neg hhead]
  rw [parseLoop_plain_all pid hpid (tokens line) _ hno rfl (by decide)]
  simp only [Nat.zero_add, List.nil_append]
  by_cases hle : (tokens line).length ≤ MAX_ARGS
  · rw [if_pos hle]
    simp only
    by_cases hnil : tokens line = []
    · simp [hnil, parseFinish]
    · rw [if_neg hnil]
      have hlen0 : (tokens line).length ≠ 0 := fun e => hnil (List.length_eq_zero.mp e)
      have hlast : ¬ ((tokens line).map (fun t => some (replaceAllPlaceholders pid t))).get?
          ((tokens line).length - 1) = some (some ['&']) := by
        intro e
        rw [List.get?_eq_getElem?, List.getElem?_map] at e
        cases hg : (tokens line)[(tokens line).length - 1]? with
        | none => rw [hg] at e; simp at e
        | some t =>
          rw [hg] at e
          simp only [Option.map_some', Option.some.injEq] at e
          have ht : t ∈ tokens line := List.getElem?_mem hg
          exact (hctl t ht).2.2 (replaceAll_eq_amp pid hpid t e)
      unfold parseFinish
      simp only [if_neg hlen0, if_neg hlast]
      by_cases hlt : (tokens line).length < MAX_ARGS
      · rw [if_pos hlt, if_pos hlt]
        have := storeArg_end ((tokens line).map (fun t => some (replaceAllPlaceholders pid t))) none
        rw [List.length_map] at this
        rw [this]
      · rw [if_neg hlt, if_neg hlt]
  · rw [if_neg hle]
    have hnil : tokens line ≠ [] := by
      intro e; rw [e] at hle; exact hle (by decide)
    rw [if_neg hnil, if_neg (by omega)]


theorem forall₂_expand_map (pid : CStr) (hpid : isPidStr pid) : ∀ (toks : List CStr),
    List.Forall₂ (fun t a => expandVariable pid t = some a) toks
      (toks.map (replaceAllPlaceholders pid))
  | [] => List.Forall₂.nil
  | t :: rest =>
    List.Forall₂.cons (expandVariable_digits pid hpid t) (forall₂_expand_map pid hpid rest)

/-- C4, amended: with the pid string `main` stored, for every input line that is
non-empty, does not start with `#`, has between 1 and 255 tokens and no token equal to
`<`, `>` or `&`, where the tokens are the non-empty pieces of the line between space
characters (a tab does not separate tokens): `parseCommand` succeeds and its argument list
is exactly these tokens, each passed through `expandVariable`, in the same order and with
the same count, followed by the terminating NULL entry; no redirection and no background
bit is recorded. -/
theorem parseCommand_plain_line (pid v : Nat) (line : CStr)
    (hne : line ≠ []) (hc : line.head? ≠ some '#')
    (hctl : ∀ t ∈ spaceSeparatedTokens line, t ≠ ['<'] ∧ t ≠ ['>'] ∧ t ≠ ['&'])
    (hpos : 1 ≤ (spaceSeparatedTokens line).length)
    (hcap : (spaceSeparatedTokens line).length ≤ 255) :
    tokens line = spaceSeparatedTokens line
    ∧ ∃ args : List CStr,
        List.Forall₂ (fun t a => expandVariable (pidString pid) t = some a)
          (spaceSeparatedTokens line) args
        ∧ args.length = (spaceSeparatedTokens line).length
        ∧ parseCommand (pidString pid) v line
            = .ok { argv := args.map some ++ [none], argc := args.length,
                    in_file := none, out_file := none, mask := 0 } := by
  have hpid := pidString_isPidStr pid
  have htok := tokens_eq_spaceSeparated line
  have hnil : spaceSeparatedTokens line ≠ [] := by
    intro e; rw [e] at hpos; exact absurd hpos (by decide)
  have hlt : (spaceSeparatedTokens line).length < MAX_ARGS := by
    have : MAX_ARGS = 256 := rfl
    omega
  refine ⟨htok, (spaceSeparatedTokens line).map (replaceAllPlaceholders (pidString pid)),
    forall₂_expand_map _ hpid _, by simp, ?_⟩
  rw [parseCommand_plain_eq _ hpid v line hne hc (by rw [htok]; exact hctl), htok,
    if_neg hnil, if_pos hlt]
  simp

theorem parseCommand_plain_line_witness :
    tokens "  wc  -l $$.txt ".toList = spaceSeparatedTokens "  wc  -l $$.txt ".toList
    ∧ ∃ args : List CStr,
        List.Forall₂ (fun t a => expandVariable (pidString 4217) t = some a)
          (spaceSeparatedTokens "  wc  -l $$.txt ".toList) args
        ∧ args.length = (spaceSeparatedTokens "  wc  -l $$.txt ".toList).length
        ∧ parseCommand (pidString 4217) 1 "  wc  -l $$.txt ".toList
            = .ok { argv := args.map some ++ [none], argc := args.length,
                    in_file := none, out_file := none, mask := 0 } :=
  parseCommand_plain_line 4217 1 "  wc  -l $$.txt ".toList (by decide) (by decide)
    (by decide) (by decide) (by decide)

theorem tokens_replicate : ∀ (n : Nat),
    tokens (List.replicate n ['a', ' ']).flatten = List.replicate n ['a']
  | 0 => rfl
  | n + 1 => by
    have h : (List.replicate (n + 1) ['a', ' ']).flatten
        = 'a' :: ' ' :: (List.replicate n ['a', ' ']).flatten := by
      simp [List.replicate_succ]
    rw [h, tokens_cons 'a' _ (by decide)]
    simp [List.replicate_succ, tokens_replicate n]

/-- A line with `MAX_ARGS` or more plain tokens makes `parseCommand` store outside
`argv`. -/
theorem parseCommand_overflow (pid : CStr) (hpid : isPidStr pid) (v : Nat) (line : CStr)
    (hne : line ≠ []) (hc : line.head? ≠ some '#')
    (hctl : ∀ t ∈ tokens line, t ≠ ['<'] ∧ t ≠ ['>'] ∧ t ≠ ['&'])
    (hmany : MAX_ARGS ≤ (tokens line).length) :
    parseCommand pid v line = .overflow := by
  have hnil : tokens line ≠ [] := by
    intro e; rw [e] at hmany; exact absurd hmany (by decide)
  rw [parseCommand_plain_eq pid hpid v line hne hc hctl, if_neg hnil, if_neg (by omega)]

/-- C4 as stated fails on the code, at three lines that are non-empty, do not start with
`#` and have no token `<`, `>` or `&`. The line `ls<TAB>-l` has the two
whitespace-separated tokens `ls` and `-l`, but `parseCommand` produces the single argument
`ls<TAB>-l`. The line of two spaces has no token, and `parseCommand` returns -1 instead of
an empty argument list. The line made of 256 times `a ` has 256 tokens, and `parseCommand`
stores its terminating NULL outside `argv`: no argument list is produced. -/
theorem parseCommand_plain_line_counterexample :
    ("ls\t-l".toList ≠ [] ∧ "ls\t-l".toList.head? ≠ some '#'
      ∧ whitespaceSeparatedTokens "ls\t-l".toList = ["ls".toList, "-l".toList]
      ∧ parseCommand (pidString 4217) 1 "ls\t-l".toList
          = .ok { argv := [some "ls\t-l".toList, none], argc := 1,
                  in_file := none, out_file := none, mask := 0 })
    ∧ (whitespaceSeparatedTokens [' ', ' '] = []
      ∧ parseCommand (pidString 4217) 1 [' ', ' '] = .fail [])
    ∧ (tokens (List.replicate 256 ['a', ' ']).flatten = List.replicate 256 ['a']
      ∧ parseCommand (pidString 4217) 1 (List.replicate 256 ['a', ' ']).flatten
          = .overflow) := by
  have hline : (List.replicate 256 ['a', ' ']).flatten
      = 'a' :: ' ' :: (List.replicate 255 ['a', ' ']).flatten := by
    rw [show (256 : Nat) = 255 + 1 from rfl, List.replicate_succ, List.flatten_cons]
    rfl
  refine ⟨by decide, by decide, tokens_replicate 256, ?_⟩
  refine parseCommand_overflow _ (pidString_isPidStr 4217) 1 _ ?_ ?_ ?_ ?_
  · rw [hline]; exact List.cons_ne_nil _ _
  · rw [hline, List.head?_cons]; decide
  · rw [tokens_replicate]
    intro t ht
    rw [List.eq_of_mem_replicate ht]
    decide
  · rw [tokens_replicate, List.length_replicate]
    decide


theorem danglingOperator_isOperator : ∀ (n : Nat) (toks : List CStr) (op : CStr),
    toks.length ≤ n → danglingOperator toks = some op → isRedirectOperator op
  | _, [], _, _, h => by simp [danglingOperator] at h
  | 0, _ :: _, _, hn, _ => by simp at hn
  | n + 1, t :: rest, op, hn, h => by
    by_cases hop : isRedirectOperator t
    · cases rest with
      | nil =>
        rw [danglingOperator_last t hop] at h
        simp only [Option.some.injEq] at h
        exact h ▸ hop
      | cons file rest' =>
        rw [danglingOperator_op t file rest' hop] at h
        exact danglingOperator_isOperator n rest' op (by simp at hn; omega) h
    · rw [danglingOperator_plain t rest hop] at h
      exact danglingOperator_isOperator n rest op (by simp at hn; omega) h

/-- C9: with the pid string `main` stored, for every non-empty line that does not start
with `#`, if the scan reaches a redirection operator with no token after it (every plain
argument before it having found room in `argv`), `parseCommand` returns -1 after writing
`Error: no file name after >` (or `<`, the operator that was left dangling) to standard
error, and the main loop executes no command for the line. -/
theorem parseCommand_dangling_operator (pid v : Nat) (line op : CStr)
    (hne : line ≠ []) (hc : line.head? ≠ some '#')
    (hreach : danglingOperator (tokens line) = some op)
    (hcap : (plainTokens (tokens line)).length ≤ MAX_ARGS) :
    (op = ['>'] ∨ op = ['<'])
    ∧ parseCommand (pidString pid) v line
        = .fail ("Error: no file name after ".toList ++ op ++ ['\n'])
    ∧ ∀ (os : ExecOS) (s : Shell),
        s.parentPidStr = pidString pid → s.v_AllowBackground = v →
        dispatch os s line
          = some ({ s with stderr := s.stderr
                      ++ ("Error: no file name after ".toList ++ op ++ ['\n']) },
                  none) := by
  have hpid := pidString_isPidStr pid
  have hop := danglingOperator_isOperator _ (tokens line) op (Nat.le_refl _) hreach
  have hhead : ¬ (line.length = 0 ∨ line.head? = some CMD_COMMENT_TOKEN) := by
    rintro (h | h)
    · exact hne (List.length_eq_zero.mp h)
    · exact hc h
  have hloop := (parseLoop_total_aux (pidString pid) hpid _ (tokens line)
    { argv := [], argc := 0, in_file := none, out_file := none, mask := 0 }
    (Nat.le_refl _) (by simpa using hcap)).1 op hreach
  have hparse : parseCommand (pidString pid) v line
      = .fail ("Error: no file name after ".toList ++ op ++ ['\n']) := by
    unfold parseCommand
    simp only [if_neg hhead]
    rw [hloop]
    rfl
  refine ⟨hop, hparse, fun os s hs hsv => ?_⟩
  unfold dispatch
  rw [hs, hsv, hparse]

theorem parseCommand_dangling_operator_witness :
    (['>'] = ['>'] ∨ ['>'] = ['<'])
    ∧ parseCommand (pidString 4217) 1 "ls -l < in >".toList
        = .fail ("Error: no file name after ".toList ++ ['>'] ++ ['\n'])
    ∧ dispatch (sampleOS none) sampleShell "ls -l < in >".toList
        = some ({ sampleShell with
                  stderr := sampleShell.stderr
                    ++ ("Error: no file name after ".toList ++ ['>'] ++ ['\n']) },
                none) :=
  have h := parseCommand_dangling_operator 4217 1 "ls -l < in >".toList ['>']
    (by decide) (by decide) (by decide) (by decide)
  ⟨h.1, h.2.1, h.2.2 (sampleOS none) sampleShell rfl rfl⟩

/-- C2 fails on the code: the line `&` is accepted. `parseCommand` tests `argc == 0`
before it strips the trailing `&`, so it returns 0 with `argc = 0` and `argv[0] = NULL`,
and the main loop passes this command to `execCommand`, where `handleBuiltInCommand`
hands the NULL `argv[0]` to `strcmp`. -/
theorem parseCommand_ampersand_accepted (os : ExecOS) (s : Shell) :
    parseCommand s.parentPidStr s.v_AllowBackground ['&']
      = .ok { argv := [none], argc := 0, in_file := none, out_file := none,
              mask := 0 ||| (BACKGROUND_MASK &&& s.v_AllowBackground) }
    ∧ execCommand os s
        { argv := [none], argc := 0, in_file := none, out_file := none,
          mask := 0 ||| (BACKGROUND_MASK &&& s.v_AllowBackground) } = none
    ∧ dispatch os s ['&'] = none := by
  have hparse : parseCommand s.parentPidStr s.v_AllowBackground ['&']
      = .ok { argv := [none], argc := 0, in_file := none, out_file := none,
              mask := 0 ||| (BACKGROUND_MASK &&& s.v_AllowBackground) } := by
    have htok : tokens ['&'] = [['&']] := by decide
    have hexp : expandVariable s.parentPidStr ['&'] = some ['&'] := by
      simp [expandVariable, expandVariableLoop, strstr, CMD_PID_TOKEN, List.isPrefixOf]
    simp [parseCommand, htok, parseLoop, hexp, parseFinish, storeArg, MAX_ARGS,
      CMD_COMMENT_TOKEN]
  have hexec : execCommand os s
      { argv := [none], argc := 0, in_file := none, out_file := none,
        mask := 0 ||| (BACKGROUND_MASK &&& s.v_AllowBackground) } = none := by
    simp [execCommand, handleBuiltInCommand]
  refine ⟨hparse, hexec, ?_⟩
  unfold dispatch
  rw [hparse]
  simp only [hexec]


/-! ## The signal controller -/

theorem write_entering :
    writeBytes "\nEntering foreground-only mode (& is now ignored)\n".toList 50
      = ['\n'] ++ transitionNotice 1 ++ ['\n'] := by decide

theorem write_exiting :
    writeBytes "\nExiting foreground-only mode\n".toList 30
      = ['\n'] ++ transitionNotice 0 ++ ['\n'] := by decide

theorem deliver_allowed (s : Shell) (_hv : s.v_AllowBackground = 1)
    (hh : s.sigtstp = .handler .handleSigStp_off) :
    deliverSIGTSTP s
      = { s with v_AllowBackground := 0, sigtstp := .handler .handleSigStp_on,
                 stdout := s.stdout ++ (['\n'] ++ transitionNotice 1 ++ ['\n']) } := by
  unfold deliverSIGTSTP
  rw [hh]
  simp only [runHandler, handleSigStp_off, write_entering]

theorem deliver_foreground_only (s : Shell) (_hv : s.v_AllowBackground = 0)
    (hh : s.sigtstp = .handler .handleSigStp_on) :
    deliverSIGTSTP s
      = { s with v_AllowBackground := 1, sigtstp := .handler .handleSigStp_off,
                 stdout := s.stdout ++ (['\n'] ++ transitionNotice 0 ++ ['\n']) } := by
  unfold deliverSIGTSTP
  rw [hh]
  simp only [runHandler, handleSigStp_on, write_exiting]

/-- The two states SIGTSTP deliveries move between. -/
theorem reached_cases (pid : Nat) (inh : SigSet) : ∀ (n : Nat),
    ((reached pid inh n).v_AllowBackground = 1
        ∧ (reached pid inh n).sigtstp = .handler .handleSigStp_off)
    ∨ ((reached pid inh n).v_AllowBackground = 0
        ∧ (reached pid inh n).sigtstp = .handler .handleSigStp_on)
  | 0 => Or.inl ⟨rfl, rfl⟩
  | n + 1 => by
    have e : reached pid inh (n + 1) = deliverSIGTSTP (reached pid inh n) := rfl
    rcases reached_cases pid inh n with ⟨hv, hh⟩ | ⟨hv, hh⟩
    · right
      rw [e, deliver_allowed _ hv hh]
      exact ⟨rfl, rfl⟩
    · left
      rw [e, deliver_foreground_only _ hv hh]
      exact ⟨rfl, rfl⟩

/-- One and two deliveries of SIGTSTP in either of the two states. -/
theorem deliver_twice (s : Shell)
    (h : (s.v_AllowBackground = 1 ∧ s.sigtstp = .handler .handleSigStp_off)
      ∨ (s.v_AllowBackground = 0 ∧ s.sigtstp = .handler .handleSigStp_on)) :
    deliverSIGTSTP s
        = { s with
            v_AllowBackground := 1 - s.v_AllowBackground,
            sigtstp := .handler (nextHandler s.v_AllowBackground),
            stdout := s.stdout ++ (['\n'] ++ transitionNotice s.v_AllowBackground ++ ['\n']) }
    ∧ deliverSIGTSTP (deliverSIGTSTP s)
        = { s with
            stdout := s.stdout ++ (['\n'] ++ transitionNotice s.v_AllowBackground ++ ['\n'])
              ++ (['\n'] ++ transitionNotice (1 - s.v_AllowBackground) ++ ['\n']) } := by
  obtain ⟨a, b, c, d, v, e, t, f, g, i, j⟩ := s
  rcases h with ⟨hv, hh⟩ | ⟨hv, hh⟩
  · simp only at hv hh
    subst hv; subst hh
    exact ⟨rfl, rfl⟩
  · simp only at hv hh
    subst hv; subst hh
    exact ⟨rfl, rfl⟩

/-- C5: the signal controller starts, after `registerSignalHandlers`, with background
allowed and the disabling handler installed. In every state reached by any number of
SIGTSTP deliveries, one more delivery flips `v_AllowBackground`, installs the opposite
handler and writes the notice of the transition table for the current mode, as a line of
its own; two deliveries restore `v_AllowBackground` and the handler and write both
notices in order, "Entering ..." then "Exiting ..." from the start state. -/
theorem sigtstp_toggle (pid : Nat) (inh : SigSet) (n : Nat) :
    ((reached pid inh 0).v_AllowBackground = 1
      ∧ (reached pid inh 0).sigtstp = .handler .handleSigStp_off)
    ∧ ((reached pid inh n).v_AllowBackground = 0 ∨ (reached pid inh n).v_AllowBackground = 1)
    ∧ deliverSIGTSTP (reached pid inh n)
        = { reached pid inh n with
            v_AllowBackground := 1 - (reached pid inh n).v_AllowBackground,
            sigtstp := .handler (nextHandler (reached pid inh n).v_AllowBackground),
            stdout := (reached pid inh n).stdout
              ++ (['\n'] ++ transitionNotice (reached pid inh n).v_AllowBackground ++ ['\n']) }
    ∧ deliverSIGTSTP (deliverSIGTSTP (reached pid inh n))
        = { reached pid inh n with
            stdout := (reached pid inh n).stdout
              ++ (['\n'] ++ transitionNotice (reached pid inh n).v_AllowBackground ++ ['\n'])
              ++ (['\n'] ++ transitionNotice (1 - (reached pid inh n).v_AllowBackground)
                    ++ ['\n']) }
    ∧ (reached pid inh 2).stdout
        = "\nEntering foreground-only mode (& is now ignored)\n".toList
            ++ "\nExiting foreground-only mode\n".toList := by
  have h2 := deliver_twice (reached pid inh n) (reached_cases pid inh n)
  refine ⟨⟨rfl, rfl⟩, ?_, h2.1, h2.2, rfl⟩
  rcases reached_cases pid inh n with ⟨hv, _⟩ | ⟨hv, _⟩
  · exact Or.inr hv
  · exact Or.inl hv


/-! ## Status translation -/

theorem WTERMSIG_eq (status : Nat) : WTERMSIG status = status % 128 :=
  Nat.and_pow_two_sub_one_eq_mod status 7

theorem WEXITSTATUS_eq (status : Nat) : WEXITSTATUS status = (status / 256) % 256 := by
  have h : (status &&& 0xff00) >>> 8 = (status >>> 8) &&& (2 ^ 8 - 1) := by
    apply Nat.eq_of_testBit_eq
    intro j
    have e : Nat.testBit 0xff00 (8 + j) = Nat.testBit (2 ^ 8 - 1) j := by
      rw [show (0xff00 : Nat) = (2 ^ 8 - 1) <<< 8 from rfl, Nat.testBit_shiftLeft]
      simp
    rw [Nat.testBit_shiftRight, Nat.testBit_and, Nat.testBit_and, Nat.testBit_shiftRight, e]
  unfold WEXITSTATUS
  rw [h, Nat.and_pow_two_sub_one_eq_mod, Nat.shiftRight_eq_div_pow]

theorem WIFEXITED_iff (status : Nat) : WIFEXITED status = true ↔ status % 128 = 0 := by
  simp [WIFEXITED, WTERMSIG_eq]

theorem WIFSIGNALED_iff (status : Nat) :
    WIFSIGNALED status = true ↔ 1 ≤ status % 128 ∧ status % 128 ≤ 126 := by
  have h : status &&& 0x7f = status % 128 := Nat.and_pow_two_sub_one_eq_mod status 7
  simp only [WIFSIGNALED, h, Nat.shiftRight_eq_div_pow, Bool.and_eq_true, decide_eq_true_eq]
  omega

/-- A command that is no built-in is handed on unchanged. -/
theorem handleBuiltInCommand_zero (s s' : Shell) (command : Option (Option CStr))
    (args : List (Option CStr)) (h : handleBuiltInCommand s command args = some (0, s')) :
    s' = s := by
  unfold handleBuiltInCommand at h
  split at h
  · split at h <;> simp at h
    exact h.symm
  · simp at h

/-- The parent side of `execCommand` for a foreground command whose wait succeeds. -/
theorem execCommand_foreground (os : ExecOS) (s : Shell) (cmd : Command) (pid status : Nat)
    (hnb : handleBuiltInCommand s cmd.argv.head? cmd.argv = some (0, s))
    (hfork : os.fork = some pid) (hfg : cmd.mask &&& BACKGROUND_MASK = 0)
    (hwait : os.waitpid = some status) :
    execCommand os s cmd = some
      { ret := 0, child := some (runChild os s cmd),
        shell := { s with
          lastStatus := (processExitStatus status 0).1,
          stdout := s.stdout ++ (processExitStatus status 0).2,
          sigmask := sigprocmaskUnblock (sigprocmaskBlock s.sigmask s.saChld.sa_mask)
            s.saChld.sa_mask } } := by
  simp [execCommand, hnb, hfork, hfg, hwait]

/-- C6: for every wait status word. If it denotes a normal exit, `processExitStatus`
returns the exit code byte (bits 8 to 15 of the word, a value in 0..255), prints nothing
when called with `printExit = 0` (the foreground wait) and prints `exit value N` when
called with a non-zero `printExit` (the reaper). If it denotes termination by a signal, it
returns the signal number and prints `terminated by signal N` whatever `printExit` is.
The foreground wait of `execCommand` stores the returned value in `lastStatus`, and
`cleanUpChild` prints the message after the pid of the finished child. -/
theorem processExitStatus_spec (status printExit : Nat) :
    (WIFEXITED status = true →
      (processExitStatus status printExit).1 = (status / 256) % 256
      ∧ (processExitStatus status printExit).1 ≤ 255
      ∧ (processExitStatus status 0).2 = []
      ∧ (printExit ≠ 0 → (processExitStatus status printExit).2
            = "exit value ".toList ++ printInt ((status / 256) % 256) ++ ['\n']))
    ∧ (WIFSIGNALED status = true →
      (processExitStatus status printExit).1 = status % 128
      ∧ (processExitStatus status printExit).2
            = "terminated by signal ".toList ++ printInt (status % 128) ++ ['\n'])
    ∧ (∀ (os : ExecOS) (s : Shell) (cmd : Command) (pid : Nat),
        handleBuiltInCommand s cmd.argv.head? cmd.argv = some (0, s) →
        os.fork = some pid → cmd.mask &&& BACKGROUND_MASK = 0 → os.waitpid = some status →
        ∃ r, execCommand os s cmd = some r
          ∧ r.shell.lastStatus = (processExitStatus status 0).1
          ∧ r.shell.stdout = s.stdout ++ (processExitStatus status 0).2)
    ∧ (∀ (s : Shell) (pid : Nat),
        (cleanUpChild [(pid, status)] s).stdout
          = s.stdout ++ "background pid ".toList ++ printInt pid ++ " is done: ".toList
              ++ (processExitStatus status 1).2) := by
  refine ⟨fun hex => ?_, fun hsig => ?_, fun os s cmd pid hnb hfork hfg hwait => ?_,
    fun s pid => rfl⟩
  · have hbyte := WEXITSTATUS_eq status
    refine ⟨?_, ?_, ?_, fun hp => ?_⟩
    · simp [processExitStatus, hex, hbyte]
    · simp only [processExitStatus, hex, if_true, hbyte]
      have := Nat.mod_lt (status / 256) (show 0 < 256 by decide)
      omega
    · simp [processExitStatus, hex]
    · simp [processExitStatus, hex, hbyte, hp]
  · have hrange := (WIFSIGNALED_iff status).mp hsig
    have hnex : WIFEXITED status = false := by
      cases h : WIFEXITED status with
      | false => rfl
      | true => have := (WIFEXITED_iff status).mp h; omega
    simp [processExitStatus, hnex, hsig, WTERMSIG_eq]
  · exact ⟨_, execCommand_foreground os s cmd pid status hnb hfork hfg hwait, rfl, rfl⟩

theorem processExitStatus_spec_witness :
    (WIFEXITED 0x300 = true ∧ (processExitStatus 0x300 1).1 = 3
      ∧ (processExitStatus 0x300 1).2 = "exit value 3\n".toList
      ∧ (processExitStatus 0x300 0).2 = [])
    ∧ (WIFSIGNALED 15 = true ∧ (processExitStatus 15 0).1 = 15
      ∧ (processExitStatus 15 0).2 = "terminated by signal 15\n".toList)
    ∧ (∃ r, execCommand ⟨some 9, some 0x300, fun _ => false, fun _ => false, false, []⟩
              (Shell.start 4217 0) ⟨[some "ls".toList, none], 1, none, none, 0⟩ = some r
          ∧ r.shell.lastStatus = (processExitStatus 0x300 0).1
          ∧ r.shell.stdout = (Shell.start 4217 0).stdout ++ (processExitStatus 0x300 0).2) :=
  have h1 := (processExitStatus_spec 0x300 1).1 (by decide)
  have h2 := (processExitStatus_spec 15 0).2.1 (by decide)
  have h3 := (processExitStatus_spec 0x300 0).2.2.1
    ⟨some 9, some 0x300, fun _ => false, fun _ => false, false, []⟩
    (Shell.start 4217 0) ⟨[some "ls".toList, none], 1, none, none, 0⟩ 9
    (by decide) rfl (by decide) rfl
  ⟨⟨by decide, h1.1.trans (by decide), (h1.2.2.2 (by decide)).trans (by decide), h1.2.2.1⟩,
   ⟨by decide, h2.1.trans (by decide), h2.2.trans (by decide)⟩, h3⟩


/-! ## The process launcher -/

/-- A parsed command carries a file name for every redirection bit that is set. -/
theorem parseCommand_redirects (pid : CStr) (v : Nat) (hv : v = 0 ∨ v = 1) (line : CStr)
    (cmd : Command) (h : parseCommand pid v line = .ok cmd) :
    (cmd.mask &&& INPUT_REDIRECT_MASK ≠ 0 → cmd.in_file ≠ none)
    ∧ (cmd.mask &&& OUTPUT_REDIRECT_MASK ≠ 0 → cmd.out_file ≠ none) := by
  obtain ⟨cmd0, args, hinv, _, _, _, hstrip, hkeep⟩ := parseCommand_ok pid v line cmd h
  obtain ⟨_, _, i1, i0, o1, o0, _⟩ := finish_mask_facts cmd0.mask hinv.mask_lt hinv.mask_even
  by_cases hlast : args.getLast? = some ['&']
  · rw [hstrip hlast]
    rcases hv with rfl | rfl
    · exact ⟨fun hb => hinv.in_some (by simpa only [i0] using hb),
        fun hb => hinv.out_some (by simpa only [o0] using hb)⟩
    · exact ⟨fun hb => hinv.in_some (by simpa only [i1] using hb),
        fun hb => hinv.out_some (by simpa only [o1] using hb)⟩
  · rw [(hkeep hlast).1]
    exact ⟨hinv.in_some, hinv.out_some⟩

/-- The standard streams of the child when it calls `execvp`, if no `open` and no `dup2`
fails. -/
theorem childSetup_streams (os : ExecOS) (s : Shell) (cmd : Command)
    (hopen : ∀ p, os.openFails p = false) (hdup : ∀ fd, os.dup2Fails fd = false)
    (hin : cmd.mask &&& INPUT_REDIRECT_MASK ≠ 0 → cmd.in_file ≠ none)
    (hout : cmd.mask &&& OUTPUT_REDIRECT_MASK ≠ 0 → cmd.out_file ≠ none) :
    ∃ c : Child, childSetup os s cmd = .ok c
      ∧ (cmd.mask &&& INPUT_REDIRECT_MASK ≠ 0 →
          ∃ p, cmd.in_file = some p ∧ c.stdin = .opened p .O_RDONLY)
      ∧ (cmd.mask &&& INPUT_REDIRECT_MASK = 0 → cmd.mask &&& BACKGROUND_MASK ≠ 0 →
          c.stdin = .opened devNull .O_RDONLY)
      ∧ (cmd.mask &&& INPUT_REDIRECT_MASK = 0 → cmd.mask &&& BACKGROUND_MASK = 0 →
          c.stdin = .inherited)
      ∧ (cmd.mask &&& OUTPUT_REDIRECT_MASK ≠ 0 →
          ∃ p, cmd.out_file = some p
            ∧ c.stdout = .opened p (.O_WRONLY_CREAT_TRUNC OUTPUT_REDIRECT_PERM))
      ∧ (cmd.mask &&& OUTPUT_REDIRECT_MASK = 0 → cmd.mask &&& BACKGROUND_MASK ≠ 0 →
          c.stdout = .opened devNull .O_WRONLY)
      ∧ (cmd.mask &&& OUTPUT_REDIRECT_MASK = 0 → cmd.mask &&& BACKGROUND_MASK = 0 →
          c.stdout = .inherited) := by
  by_cases hi : cmd.mask &&& INPUT_REDIRECT_MASK = 0 <;>
  by_cases ho : cmd.mask &&& OUTPUT_REDIRECT_MASK = 0 <;>
  by_cases hb : cmd.mask &&& BACKGROUND_MASK = 0
  all_goals
    first
    | (cases hif : cmd.in_file with
       | none => exact absurd hif (hin hi)
       | some p =>
         cases hof : cmd.out_file with
         | none => exact absurd hof (hout ho)
         | some q =>
           simp [childSetup, childRedirectInput, childRedirectOutput, childSignals,
             childNullDevice, redirect, hi, ho, hb, hopen, hdup, hif, hof, Child.sigaction,
             SIGINT, SIGTSTP])
    | (cases hif : cmd.in_file with
       | none => exact absurd hif (hin hi)
       | some p =>
           simp [childSetup, childRedirectInput, childRedirectOutput, childSignals,
             childNullDevice, redirect, hi, ho, hb, hopen, hdup, hif, Child.sigaction,
             SIGINT, SIGTSTP])
    | (cases hof : cmd.out_file with
       | none => exact absurd hof (hout ho)
       | some q =>
           simp [childSetup, childRedirectInput, childRedirectOutput, childSignals,
             childNullDevice, redirect, hi, ho, hb, hopen, hdup, hof, Child.sigaction,
             SIGINT, SIGTSTP])
    | simp [childSetup, childRedirectInput, childRedirectOutput, childSignals,
             childNullDevice, redirect, hi, ho, hb, hopen, hdup, Child.sigaction,
             SIGINT, SIGTSTP]


theorem redirect_proc (os : ExecOS) (c c' : Child) (path : Option CStr) (mode : OpenMode)
    (fd : Nat) (report : CStr) (h : redirect os c path mode fd report = .ok c') :
    c'.proc = c.proc := by
  unfold redirect at h
  split at h
  · simp at h
  · split at h
    · simp at h
    · split at h
      · simp at h
      · split at h <;> (simp only [Except.ok.injEq] at h; rw [← h])

theorem childRedirectInput_proc (os : ExecOS) (cmd : Command) (c c' : Child)
    (h : childRedirectInput os cmd c = .ok c') : c'.proc = c.proc := by
  unfold childRedirectInput at h
  split at h
  · exact redirect_proc _ _ _ _ _ _ _ h
  · simp only [Except.ok.injEq] at h; rw [← h]

theorem childRedirectOutput_proc (os : ExecOS) (cmd : Command) (c c' : Child)
    (h : childRedirectOutput os cmd c = .ok c') : c'.proc = c.proc := by
  unfold childRedirectOutput at h
  split at h
  · exact redirect_proc _ _ _ _ _ _ _ h
  · simp only [Except.ok.injEq] at h; rw [← h]

theorem childNullDevice_proc (os : ExecOS) (cmd : Command) (c c' : Child)
    (h : childNullDevice os cmd c = .ok c') : c'.proc = c.proc := by
  unfold childNullDevice at h
  split at h
  · simp at h
  · rename_i c1 h1
    have p1 : c1.proc = c.proc := by
      split at h1
      · exact redirect_proc _ _ _ _ _ _ _ h1
      · simp only [Except.ok.injEq] at h1; rw [← h1]
    split at h
    · rw [redirect_proc _ _ _ _ _ _ _ h, p1]
    · simp only [Except.ok.injEq] at h; rw [← h, p1]

theorem childSignals_dispositions (os : ExecOS) (cmd : Command) (c c' : Child)
    (h : childSignals os cmd c = .ok c') :
    c'.proc.sigtstp
        = (if cmd.mask &&& BACKGROUND_MASK ≠ 0 then c.proc.saChld.sa_handler else .SIG_IGN)
    ∧ c'.proc.sigint
        = (if cmd.mask &&& BACKGROUND_MASK ≠ 0 then c.proc.saChld.sa_handler else .SIG_DFL) := by
  unfold childSignals at h
  by_cases hb : cmd.mask &&& BACKGROUND_MASK ≠ 0
  · simp only [if_pos hb] at h ⊢
    rw [childNullDevice_proc _ _ _ _ h]
    simp [Child.sigaction, SIGINT, SIGTSTP]
  · simp only [if_neg hb] at h ⊢
    simp only [Except.ok.injEq] at h
    rw [← h]
    simp [Child.sigaction, SIGINT, SIGTSTP]

/-- The dispositions of SIGTSTP and SIGINT in the child when it calls `execvp`. -/
theorem childSetup_dispositions (os : ExecOS) (s : Shell) (cmd : Command) (c : Child)
    (h : childSetup os s cmd = .ok c) :
    c.proc.sigtstp
        = (if cmd.mask &&& BACKGROUND_MASK ≠ 0 then s.saChld.sa_handler else .SIG_IGN)
    ∧ c.proc.sigint
        = (if cmd.mask &&& BACKGROUND_MASK ≠ 0 then s.saChld.sa_handler else .SIG_DFL) := by
  unfold childSetup at h
  split at h
  · simp at h
  · rename_i c1 h1
    have p1 := childRedirectInput_proc _ _ _ _ h1
    split at h
    · simp at h
    · rename_i c2 h2
      have p2 := childRedirectOutput_proc _ _ _ _ h2
      have := childSignals_dispositions os cmd c2 c h
      rw [p2, p1] at this
      exact this


/-- When the command is no built-in and `fork` succeeds, `execCommand` returns and the
child it created runs the child branch on a copy of the interpreter. -/
theorem execCommand_child (os : ExecOS) (s : Shell) (cmd : Command) (pid : Nat)
    (hnb : handleBuiltInCommand s cmd.argv.head? cmd.argv = some (0, s))
    (hfork : os.fork = some pid) :
    ∃ r, execCommand os s cmd = some r ∧ r.child = some (runChild os s cmd) := by
  unfold execCommand
  simp only [hnb, hfork]
  by_cases hb : cmd.mask &&& BACKGROUND_MASK ≠ 0
  · simp [hb]
  · cases hw : os.waitpid <;> simp [hb]

/-- C7: for every command `parseCommand` produced that is no built-in and for which
`fork` succeeded, if no `open` and no `dup2` in the child fails, the child reaches the
call of `execvp`, and at that moment: its stdin is the input file (opened read-only) if
input redirection was requested, else the null device if the command is background, else
the inherited stdin; its stdout is the output file (opened write-only, create, truncate,
mode 0640) if output redirection was requested, else the null device if the command is
background, else the inherited stdout. A background child never reaches `execvp` with an
inherited stdin or stdout. -/
theorem child_standard_streams (pid : CStr) (v : Nat) (line : CStr) (cmd : Command)
    (os : ExecOS) (s : Shell) (childPid : Nat)
    (hv : v = 0 ∨ v = 1) (hparse : parseCommand pid v line = .ok cmd)
    (hnb : handleBuiltInCommand s cmd.argv.head? cmd.argv = some (0, s))
    (hfork : os.fork = some childPid)
    (hopen : ∀ p, os.openFails p = false) (hdup : ∀ fd, os.dup2Fails fd = false) :
    ∃ (r : ExecResult) (c : Child),
      execCommand os s cmd = some r ∧ r.child = some (runChild os s cmd)
      ∧ childSetup os s cmd = .ok c
      ∧ (os.execFails = false → r.child = some (.exec c cmd.argv.head? cmd.argv))
      ∧ (cmd.mask &&& INPUT_REDIRECT_MASK ≠ 0 →
          ∃ p, cmd.in_file = some p ∧ c.stdin = .opened p .O_RDONLY)
      ∧ (cmd.mask &&& INPUT_REDIRECT_MASK = 0 → cmd.mask &&& BACKGROUND_MASK ≠ 0 →
          c.stdin = .opened devNull .O_RDONLY)
      ∧ (cmd.mask &&& INPUT_REDIRECT_MASK = 0 → cmd.mask &&& BACKGROUND_MASK = 0 →
          c.stdin = .inherited)
      ∧ (cmd.mask &&& OUTPUT_REDIRECT_MASK ≠ 0 →
          ∃ p, cmd.out_file = some p
            ∧ c.stdout = .opened p (.O_WRONLY_CREAT_TRUNC OUTPUT_REDIRECT_PERM))
      ∧ (cmd.mask &&& OUTPUT_REDIRECT_MASK = 0 → cmd.mask &&& BACKGROUND_MASK ≠ 0 →
          c.stdout = .opened devNull .O_WRONLY)
      ∧ (cmd.mask &&& OUTPUT_REDIRECT_MASK = 0 → cmd.mask &&& BACKGROUND_MASK = 0 →
          c.stdout = .inherited)
      ∧ (cmd.mask &&& BACKGROUND_MASK ≠ 0 → c.stdin ≠ .inherited ∧ c.stdout ≠ .inherited) := by
  obtain ⟨hin, hout⟩ := parseCommand_redirects pid v hv line cmd hparse
  obtain ⟨r, hr, hchild⟩ := execCommand_child os s cmd childPid hnb hfork
  obtain ⟨c, hc, i1, i2, i3, o1, o2, o3⟩ := childSetup_streams os s cmd hopen hdup hin hout
  refine ⟨r, c, hr, hchild, hc, ?_, i1, i2, i3, o1, o2, o3, fun hb => ⟨?_, ?_⟩⟩
  · intro he
    rw [hchild]
    simp [runChild, hc, he]
  · by_cases hi : cmd.mask &&& INPUT_REDIRECT_MASK = 0
    · rw [i2 hi hb]; simp
    · obtain ⟨p, _, hp⟩ := i1 hi
      rw [hp]; simp
  · by_cases ho : cmd.mask &&& OUTPUT_REDIRECT_MASK = 0
    · rw [o2 ho hb]; simp
    · obtain ⟨p, _, hp⟩ := o1 ho
      rw [hp]; simp

theorem child_standard_streams_witness :
    parseCommand "4217".toList 1 "sort < in &".toList = .ok sampleBackground
    ∧ ∃ (r : ExecResult) (c : Child),
        execCommand (sampleOS none) sampleShell sampleBackground = some r
        ∧ r.child = some (.exec c (some (some "sort".toList)) sampleBackground.argv)
        ∧ c.stdin = .opened "in".toList .O_RDONLY
        ∧ c.stdout = .opened devNull .O_WRONLY :=
  have h := child_standard_streams "4217".toList 1 "sort < in &".toList sampleBackground
    (sampleOS none) sampleShell 4300 (Or.inr rfl) (by decide) (by decide) rfl
    (fun _ => rfl) (fun _ => rfl)
  match h with
  | ⟨r, c, h1, _, _, h4, h5, _, _, _, h9, _, _⟩ =>
    ⟨by decide, r, c, h1, h4 rfl,
      (match h5 (by decide) with
        | ⟨p, hp, hs⟩ => by
          have e : p = "in".toList := by
            have : some "in".toList = some p := hp
            exact (Option.some.inj this).symm
          rw [hs, e]),
      h9 (by decide) (by decide)⟩


/-! ## The shared `saChld` record -/

theorem handleBuiltInCommand_saChld (s s' : Shell) (command : Option (Option CStr))
    (args : List (Option CStr)) (n : Nat)
    (h : handleBuiltInCommand s command args = some (n, s')) : s'.saChld = s.saChld := by
  unfold handleBuiltInCommand at h
  split at h
  · split at h <;> (simp only [Option.some.injEq, Prod.mk.injEq] at h; rw [← h.2])
  · simp at h

theorem execCommand_saChld (os : ExecOS) (s : Shell) (cmd : Command) (r : ExecResult)
    (h : execCommand os s cmd = some r) : r.shell.saChld = s.saChld := by
  unfold execCommand at h
  split at h
  · simp at h
  · rename_i handled s' hb
    have hs := handleBuiltInCommand_saChld s s' _ _ handled hb
    split at h
    · simp only [Option.some.injEq] at h; rw [← h]; exact hs
    · split at h
      · simp only [Option.some.injEq] at h; rw [← h]; exact hs
      · split at h
        · simp only [Option.some.injEq] at h; rw [← h]; exact hs
        · split at h
          · simp only [Option.some.injEq] at h; rw [← h]; exact hs
          · simp only [Option.some.injEq] at h; rw [← h]; exact hs

theorem cleanUpChild_saChld : ∀ (reaped : List (Nat × Nat)) (s : Shell),
    (cleanUpChild reaped s).saChld = s.saChld
  | [], _ => rfl
  | (_, _) :: more, s => by
    unfold cleanUpChild
    rw [cleanUpChild_saChld more]

theorem runHandler_saChld (h : Handler) (s : Shell) : (runHandler h s).saChld = s.saChld := by
  cases h <;> rfl

theorem deliverSIGTSTP_saChld (s : Shell) : (deliverSIGTSTP s).saChld = s.saChld := by
  unfold deliverSIGTSTP
  split
  · exact runHandler_saChld _ _
  · rfl

theorem deliverSIGINT_saChld (s : Shell) : (deliverSIGINT s).saChld = s.saChld := by
  unfold deliverSIGINT
  split
  · exact runHandler_saChld _ _
  · rfl

/-- No event changes the `saChld` record of the interpreter: the child branch of
`execCommand` writes to the copy the child got at `fork`. -/
theorem step_saChld (s s' : Shell) (e : Event) (h : s.step e = some s') :
    s'.saChld = s.saChld := by
  cases e with
  | command os cmd =>
    simp only [Shell.step, Option.map_eq_some'] at h
    obtain ⟨r, hr, hs⟩ := h
    rw [← hs]
    exact execCommand_saChld os s cmd r hr
  | reap reaped =>
    simp only [Shell.step, Option.some.injEq] at h
    rw [← h]; exact cleanUpChild_saChld reaped s
  | sigtstp =>
    simp only [Shell.step, Option.some.injEq] at h
    rw [← h]; exact deliverSIGTSTP_saChld s
  | sigint =>
    simp only [Shell.step, Option.some.injEq] at h
    rw [← h]; exact deliverSIGINT_saChld s

theorem run_saChld : ∀ (events : List Event) (s s' : Shell),
    Shell.run events s = some s' → s'.saChld = s.saChld
  | [], s, s', h => by
    simp only [Shell.run, Option.some.injEq] at h
    rw [h]
  | e :: es, s, s', h => by
    unfold Shell.run at h
    split at h
    · simp at h
    · rename_i s1 h1
      rw [run_saChld es s1 s' h, step_saChld s s1 e h1]

/-- C8: whatever the interpreter did since `registerSignalHandlers` (commands in the
foreground or the background, reaping, signal deliveries), its `saChld` record still says
`SIG_IGN`, and every child that reaches `execvp` does so with SIGTSTP ignored and with
SIGINT at its default disposition if the command is foreground, ignored if it is
background. -/
theorem child_signal_dispositions (pid : Nat) (inh : SigSet) (events : List Event)
    (s : Shell) (os : ExecOS) (cmd : Command) (c : Child)
    (hrun : Shell.run events (registerSignalHandlers (Shell.start pid inh)) = some s)
    (hc : childSetup os s cmd = .ok c) :
    s.saChld.sa_handler = .SIG_IGN
    ∧ c.proc.sigtstp = .SIG_IGN
    ∧ (cmd.mask &&& BACKGROUND_MASK = 0 → c.proc.sigint = .SIG_DFL)
    ∧ (cmd.mask &&& BACKGROUND_MASK ≠ 0 → c.proc.sigint = .SIG_IGN) := by
  have hsa : s.saChld.sa_handler = .SIG_IGN := by
    rw [run_saChld events _ s hrun]; rfl
  obtain ⟨h1, h2⟩ := childSetup_dispositions os s cmd c hc
  refine ⟨hsa, ?_, fun hb => ?_, fun hb => ?_⟩
  · rw [h1, hsa]; simp
  · rw [h2, if_neg (by simpa using hb)]
  · rw [h2, if_pos hb, hsa]

theorem child_signal_dispositions_witness :
    ∃ (s : Shell) (c : Child),
      Shell.run [.command (sampleOS (some 0)) sampleForeground, .sigtstp, .reap [(4300, 0)],
          .command (sampleOS none) sampleBackground]
        (registerSignalHandlers (Shell.start 4217 0)) = some s
      ∧ childSetup (sampleOS none) s sampleBackground = .ok c
      ∧ s.saChld.sa_handler = .SIG_IGN
      ∧ c.proc.sigtstp = .SIG_IGN
      ∧ c.proc.sigint = .SIG_IGN :=
  have h := child_signal_dispositions 4217 0
    [.command (sampleOS (some 0)) sampleForeground, .sigtstp, .reap [(4300, 0)],
      .command (sampleOS none) sampleBackground]
    _ (sampleOS none) sampleBackground _ rfl rfl
  ⟨_, _, rfl, rfl, h.1, h.2.1, h.2.2.2 (by decide)⟩

/-! ## The signal mask around the foreground wait -/

/-- The parent side of `execCommand` for a foreground command whose wait fails. -/
theorem execCommand_wait_error (os : ExecOS) (s : Shell) (cmd : Command) (pid : Nat)
    (hnb : handleBuiltInCommand s cmd.argv.head? cmd.argv = some (0, s))
    (hfork : os.fork = some pid) (hfg : cmd.mask &&& BACKGROUND_MASK = 0)
    (hwait : os.waitpid = none) :
    execCommand os s cmd = some
      { ret := -1, child := some (runChild os s cmd),
        shell := { s with sigmask := sigprocmaskBlock s.sigmask s.saChld.sa_mask } } := by
  simp [execCommand, hnb, hfork, hfg, hwait]

/-- C10 fails on the code: when `waitpid` reports an error for the foreground command
`ls`, `execCommand` returns -1 through the `break` that skips
`sigprocmask(SIG_UNBLOCK, ...)`. The interpreter had no signal blocked before the command
and has every blockable signal blocked after it, SIGINT and SIGTSTP among them. When the
wait succeeds the mask is restored. -/
theorem execCommand_wait_error_keeps_signals_blocked :
    parseCommand sampleShell.parentPidStr sampleShell.v_AllowBackground "ls".toList
        = .ok sampleForeground
    ∧ sampleShell.sigmask = 0
    ∧ (∃ r, execCommand (sampleOS none) sampleShell sampleForeground = some r
        ∧ r.ret = -1
        ∧ r.shell.sigmask = sigfillset ^^^ (2 ^ SIGKILL ||| 2 ^ SIGSTOP)
        ∧ r.shell.sigmask ≠ sampleShell.sigmask
        ∧ r.shell.sigmask.testBit SIGINT = true
        ∧ r.shell.sigmask.testBit SIGTSTP = true)
    ∧ (∃ r, execCommand (sampleOS (some 0)) sampleShell sampleForeground = some r
        ∧ r.ret = 0
        ∧ r.shell.sigmask = sampleShell.sigmask) := by
  refine ⟨by decide, rfl, ⟨_, execCommand_wait_error (sampleOS none) sampleShell
    sampleForeground 4300 (by decide) rfl (by decide) rfl, rfl, ?_, ?_, ?_, ?_⟩,
    ⟨_, execCommand_foreground (sampleOS (some 0)) sampleShell sampleForeground 4300 0
      (by decide) rfl (by decide) rfl, rfl, ?_⟩⟩
  all_goals decide

end Tsh
